import Mathlib

/-!
Verification development for the nocycle repository (hostilefork/nocycle).

Shallow embedding of the three layers of the library, translated from the
C++ sources, under the compiled configuration of NocycleSettings.hpp:
DIRECTEDACYCLICGRAPH_CACHE_REACHABILITY = 1, DIRECTEDACYCLICGRAPH_USER_TRISTATE = 0,
DIRECTEDACYCLICGRAPH_CACHE_REACH_WITHOUT_LINK = 1, DIRECTEDACYCLICGRAPH_CONSISTENCY_CHECK = 0.

Layer 1 (Nstate.hpp): Nstate<3> digit packing into 32-bit unsigned words and
NstateArray<3> with ResizeWithZeros.  Machine words are modelled as Nat with
an explicit reduction mod 2^32 at the one place the C++ unsigned arithmetic
can wrap (the final sum of SetDigitInPackedValue).

Layer 2 (OrientedGraph.hpp): the packed adjacency store over the triangular
index layout E(v) = v*(v+1)/2, C(s,l) = E(l) + (l-s).

Layer 3 (DirectedAcyclicGraph.hpp): the DAG wrapper holding the data graph
(inherited OrientedGraph state) and the m_canreach sidestructure, with the
cached CanReach, CleanUpReachability (modelled with explicit fuel; the C++
recursion terminates on acyclic data), SetEdge, ClearEdge, and the vertex
lifecycle / capacity overrides.  nocycle_assert conditions do not alter the
state on the success path; the model follows the non-asserting control flow,
and contract-checked variants are given separately where a claim is about
the assertions themselves.
-/

namespace Nocycle

/-! ### Layer 1: Nstate packing (Nstate.hpp) -/

/-- Number of base-3 digits stored per 32-bit packed word: the PowerTable
constructor computes floor(log 2 / log 3 * 32) = 20 entries for radix 3. -/
def nstatesInPackedType : ℕ := 20

/-- PowerTable::PowerForDigit for radix 3: entry i holds 3^i. -/
def powerForDigit (digit : ℕ) : ℕ := 3 ^ digit

/-- NstateArray<3>::GetDigitInPackedValue: mod away the digits above `digit`
(skipped for the most significant digit), then divide off the lower digits. -/
def GetDigitInPackedValue (packed digit : ℕ) : ℕ :=
  let value := if digit < nstatesInPackedType - 1 then packed % powerForDigit (digit + 1) else packed
  value / powerForDigit digit

/-- NstateArray<3>::SetDigitInPackedValue: upper part + t*3^digit + lower part,
computed in 32-bit unsigned arithmetic (the final sum is the only place a
carry can exceed 2^32, hence the explicit reduction). -/
def SetDigitInPackedValue (packed digit t : ℕ) : ℕ :=
  let upperPart :=
    if digit < nstatesInPackedType - 1
    then packed / powerForDigit (digit + 1) * powerForDigit (digit + 1) else 0
  let setPart := t * powerForDigit digit
  let lowerPart := if 0 < digit then packed % powerForDigit digit else 0
  (upperPart + setPart + lowerPart) % 2 ^ 32

/-- NstateArray<3>: vector of packed words plus the element count m_max. -/
structure NA where
  buffer : List ℕ
  mmax : ℕ
  deriving Repr, DecidableEq

/-- Read element `pos` (operator[] const): locate the word and extract the digit. -/
def NA.read (na : NA) (pos : ℕ) : ℕ :=
  GetDigitInPackedValue (na.buffer.getD (pos / nstatesInPackedType) 0) (pos % nstatesInPackedType)

/-- Write element `pos` (reference::do_assign through operator[]). -/
def NA.write (na : NA) (pos t : ℕ) : NA :=
  let idx := pos / nstatesInPackedType
  ⟨na.buffer.set idx
      (SetDigitInPackedValue (na.buffer.getD idx 0) (pos % nstatesInPackedType) t),
   na.mmax⟩

/-- std::vector::resize with zero fill: keep a prefix, pad with zeros. -/
def listResize (l : List ℕ) (n : ℕ) : List ℕ :=
  l.take n ++ List.replicate (n - l.length) 0

/-- Zero out digits lo, lo+1, ..., hi-1 of a packed word (the erase loops of
ResizeWithZeros). -/
def zeroDigitsFrom (w lo hi : ℕ) : ℕ :=
  (List.range' lo (hi - lo)).foldl (fun acc d => SetDigitInPackedValue acc d 0) w

/-- NstateArray<3>::ResizeWithZeros, including the two tail-word zeroing
branches for the shrink cases. -/
def NA.resizeWithZeros (na : NA) (mx : ℕ) : NA :=
  let oldBufferSize := na.buffer.length
  let newBufferSize := mx / nstatesInPackedType + (if mx % nstatesInPackedType = 0 then 0 else 1)
  let oldMaxDigitNeeded0 := na.mmax % nstatesInPackedType
  let oldMaxDigitNeeded :=
    if oldMaxDigitNeeded0 = 0 ∧ 0 < na.mmax then nstatesInPackedType else oldMaxDigitNeeded0
  let newMaxDigitNeeded0 := mx % nstatesInPackedType
  let newMaxDigitNeeded :=
    if newMaxDigitNeeded0 = 0 ∧ 0 < mx then nstatesInPackedType else newMaxDigitNeeded0
  let buf := listResize na.buffer newBufferSize
  let buf :=
    if newBufferSize = oldBufferSize ∧ newMaxDigitNeeded < oldMaxDigitNeeded then
      buf.set (newBufferSize - 1)
        (zeroDigitsFrom (buf.getD (newBufferSize - 1) 0) newMaxDigitNeeded oldMaxDigitNeeded)
    else if newBufferSize < oldBufferSize ∧ 0 < newMaxDigitNeeded then
      buf.set (newBufferSize - 1)
        (zeroDigitsFrom (buf.getD (newBufferSize - 1) 0) newMaxDigitNeeded nstatesInPackedType)
    else buf
  ⟨buf, mx⟩

/-- NstateArray<3> constructor: empty buffer resized to the initial size. -/
def naNew (initialSize : ℕ) : NA := NA.resizeWithZeros ⟨[], 0⟩ initialSize

/-! ### Layer 2: OrientedGraph (OrientedGraph.hpp) -/

/-- OrientedGraph::VertexType vertexTypeOne, encoded as its existence-cell value. -/
def vertexTypeOne : ℕ := 1

/-- OrientedGraph::VertexType vertexTypeTwo, encoded as its existence-cell value. -/
def vertexTypeTwo : ℕ := 2

/-- TristateIndexForExistence: E(v) = v*(v+1)/2. -/
def tifE (v : ℕ) : ℕ := v * (v + 1) / 2

/-- TristateIndexForConnection: C(s,l) = E(l) + (l - s), for s < l. -/
def tifC (s l : ℕ) : ℕ := tifE l + (l - s)

/-- Integer square root helper, by downward search from a bound: the largest
r at most the bound with r*r not exceeding x.  (Structurally recursive so
that concrete states evaluate inside the kernel.) -/
def isqrtAux (x : ℕ) : ℕ → ℕ
  | 0 => 0
  | r + 1 => if (r + 1) * (r + 1) ≤ x then r + 1 else isqrtAux x r

/-- Integer square root (exact on perfect squares, as the double-precision
sqrt of the source is on the index ranges it is used with). -/
def isqrt (x : ℕ) : ℕ := isqrtAux x x

/-- VertexFromExistenceTristateIndex: invert E by the quadratic formula
(exact on indices of the form E(v)). -/
def vertexFromExistenceIndex (pos : ℕ) : ℕ := (isqrt (1 + 8 * pos) - 1) / 2

/-- OrientedGraph state: the single packed tristate buffer m_buffer. -/
structure OG where
  buffer : NA
  deriving Repr, DecidableEq

/-- Read one tristate cell of the buffer. -/
def OG.cell (g : OG) (i : ℕ) : ℕ := g.buffer.read i

/-- Write one tristate cell of the buffer. -/
def OG.setCell (g : OG) (i x : ℕ) : OG := ⟨g.buffer.write i x⟩

/-- OrientedGraph::GetFirstInvalidVertexID, recovered from the buffer length. -/
def OG.firstInvalid (g : OG) : ℕ :=
  if g.buffer.mmax = 0 then 0 else vertexFromExistenceIndex g.buffer.mmax

/-- OrientedGraph::SetCapacityForMaxValidVertexID: resize to E(v+1). -/
def OG.setCapacityForMaxValidVertexID (g : OG) (v : ℕ) : OG :=
  ⟨g.buffer.resizeWithZeros (tifE (v + 1))⟩

/-- OrientedGraph::SetCapacitySoVertexIsFirstInvalidID: resize to E(v) (0 for v = 0). -/
def OG.setCapacitySoVertexIsFirstInvalidID (g : OG) (v : ℕ) : OG :=
  if v = 0 then ⟨g.buffer.resizeWithZeros 0⟩ else ⟨g.buffer.resizeWithZeros (tifE v)⟩

/-- OrientedGraph::GrowCapacityForMaxValidVertexID (assert is a precondition;
state effect is SetCapacityForMaxValidVertexID). -/
def OG.growCapacityForMaxValidVertexID (g : OG) (v : ℕ) : OG :=
  g.setCapacityForMaxValidVertexID v

/-- OrientedGraph::ShrinkCapacitySoVertexIsFirstInvalidID (assert is a
precondition; state effect is SetCapacitySoVertexIsFirstInvalidID). -/
def OG.shrinkCapacitySoVertexIsFirstInvalidID (g : OG) (v : ℕ) : OG :=
  g.setCapacitySoVertexIsFirstInvalidID v

/-- OrientedGraph constructor: buffer built at size 0, then
SetCapacitySoVertexIsFirstInvalidID(initial_size). -/
def ogNew (initialSize : ℕ) : OG :=
  OG.setCapacitySoVertexIsFirstInvalidID ⟨naNew 0⟩ initialSize

/-- Existence cell of vertex v (0 = doesNotExist, 1 = existsAsTypeOne, 2 = existsAsTypeTwo). -/
def OG.existenceCell (g : OG) (v : ℕ) : ℕ := g.cell (tifE v)

/-- OrientedGraph::VertexExists. -/
def OG.vertexExists (g : OG) (v : ℕ) : Bool := g.existenceCell v != 0

/-- OrientedGraph::GetVertexType, returned as the raw existence-cell value
(1 = vertexTypeOne, 2 = vertexTypeTwo; asserts existence in the source). -/
def OG.getVertexType (g : OG) (v : ℕ) : ℕ := g.existenceCell v

/-- OrientedGraph::CreateVertexEx (assert !VertexExists is a precondition). -/
def OG.createVertexEx (g : OG) (v vt : ℕ) : OG := g.setCell (tifE v) vt

/-- OrientedGraph::CreateVertex. -/
def OG.createVertex (g : OG) (v : ℕ) : OG := g.createVertexEx v vertexTypeOne

/-- OrientedGraph::SetVertexType (assert VertexExists is a precondition). -/
def OG.setVertexType (g : OG) (v vt : ℕ) : OG := g.setCell (tifE v) vt

/-- Connection cell for an ordered pair, after sorting into (small, large). -/
def OG.connCell (g : OG) (f t : ℕ) : ℕ :=
  g.cell (tifC (min f t) (max f t))

/-- OrientedGraph::HasLinkage return value: some connection in either direction. -/
def OG.hasLinkage (g : OG) (f t : ℕ) : Bool := g.connCell f t != 0

/-- The forwardEdge out-parameter of OrientedGraph::HasLinkage (false when
not connected). -/
def OG.forwardEdgeB (g : OG) (f t : ℕ) : Bool :=
  let c := g.connCell f t
  if t > f then c == 1 else c == 2

/-- The reverseEdge out-parameter of OrientedGraph::HasLinkage (false when
not connected). -/
def OG.reverseEdgeB (g : OG) (f t : ℕ) : Bool :=
  let c := g.connCell f t
  if t > f then c == 2 else c == 1

/-- OrientedGraph::EdgeExists. -/
def OG.edgeExists (g : OG) (f t : ℕ) : Bool := g.forwardEdgeB f t

/-- OrientedGraph::SetEdge.  Returns the new state and the "edge is new"
flag; an existing same-direction edge is a no-op returning false, and the
conflicting reverse direction hits assert(false) and returns false without
modification. -/
def OG.setEdge (g : OG) (f t : ℕ) : OG × Bool :=
  let i := tifC (min f t) (max f t)
  let want : ℕ := if t > f then 1 else 2
  let c := g.cell i
  if c = want then (g, false)
  else if c = 0 then (g.setCell i want, true)
  else (g, false)

/-- OrientedGraph::ClearEdge: clear only a same-direction connection. -/
def OG.clearEdge (g : OG) (f t : ℕ) : OG × Bool :=
  let i := tifC (min f t) (max f t)
  let want : ℕ := if t > f then 1 else 2
  let c := g.cell i
  if c = want then (g.setCell i 0, true) else (g, false)

/-- Membership test for the outgoing-edge scan of GetVertexInfoMaybeDestroy:
u is listed among v's outgoing edges. -/
def OG.isOutgoingEdge (g : OG) (v u : ℕ) : Bool :=
  u < g.firstInvalid && u != v &&
    (let c := g.cell (tifC (min u v) (max u v))
     if c = 1 then v < u else if c = 2 then u < v else false)

/-- Membership test for the incoming-edge scan of GetVertexInfoMaybeDestroy. -/
def OG.isIncomingEdge (g : OG) (v u : ℕ) : Bool :=
  u < g.firstInvalid && u != v &&
    (let c := g.cell (tifC (min u v) (max u v))
     if c = 1 then u < v else if c = 2 then v < u else false)

/-- OrientedGraph::OutgoingEdgesForVertex (std::set iterates ascending). -/
def OG.outgoingEdges (g : OG) (v : ℕ) : List ℕ :=
  (List.range g.firstInvalid).filter (fun u => g.isOutgoingEdge v u)

/-- OrientedGraph::IncomingEdgesForVertex (std::set iterates ascending). -/
def OG.incomingEdges (g : OG) (v : ℕ) : List ℕ :=
  (List.range g.firstInvalid).filter (fun u => g.isIncomingEdge v u)

/-- The while loop of the compaction branch of GetVertexInfoMaybeDestroy:
starting from the (nonexistent) top vertex, walk down past trailing
nonexistent vertices; the result is the new first-invalid id. -/
def OG.walkDown (g : OG) : ℕ → ℕ
  | 0 => 0
  | v + 1 => if g.existenceCell v ≠ 0 then v + 1 else g.walkDown v

/-- The body of the connection-scan loop of GetVertexInfoMaybeDestroy: one
candidate vertex vT is tested against vE, counted, and (when destroying) its
connection cell is cleared. -/
def destroyScanStep (destroyIfExists : Bool) (vE : ℕ) (acc : OG × ℕ × ℕ) (vT : ℕ) :
    OG × ℕ × ℕ :=
  let (h, ic, oc) := acc
  if vT = vE then (h, ic, oc)
  else
    let s := min vT vE
    let l := max vT vE
    let c := h.cell (tifC s l)
    if c = 0 then (h, ic, oc)
    else
      let outgoing := if c = 1 then vE < vT else vT < vE
      let h := if destroyIfExists then h.setCell (tifC s l) 0 else h
      if outgoing then (h, ic, oc + 1) else (h, ic + 1, oc)

/-- OrientedGraph::GetVertexInfoMaybeDestroy.  `wantConnections` models
whether any of the four connection out-parameters (incomingEdgeCount,
outgoingEdgeCount, incomingEdges, outgoingEdges) is non-null: only then does
the source run the connection scan (and, when destroying, clear the
connection cells).  Returns the state, the `exists` flag, and the incoming
and outgoing edge counts. -/
def OG.getVertexInfoMaybeDestroy (g : OG) (vE : ℕ)
    (wantConnections destroyIfExists compactIfDestroy : Bool) : OG × Bool × ℕ × ℕ :=
  let exc := g.existenceCell vE
  if exc = 0 then (g, false, 0, 0)
  else
    let scanned :=
      if wantConnections then
        (List.range g.firstInvalid).foldl (destroyScanStep destroyIfExists vE) (g, 0, 0)
      else (g, 0, 0)
    let g1 := scanned.1
    let ic := scanned.2.1
    let oc := scanned.2.2
    if destroyIfExists then
      let g2 := g1.setCell (tifE vE) 0
      if compactIfDestroy then
        let vT := g2.firstInvalid - 1
        if g2.existenceCell vT = 0 then
          (g2.shrinkCapacitySoVertexIsFirstInvalidID (g2.walkDown vT), true, ic, oc)
        else (g2, true, ic, oc)
      else (g2, true, ic, oc)
    else (g1, true, ic, oc)

/-- OrientedGraph::DestroyVertexEx with explicit edge-count out-parameters
requested (both pointers non-null). -/
def OG.destroyVertexExCounts (g : OG) (v : ℕ) (compact : Bool) : OG × ℕ × ℕ :=
  let r := g.getVertexInfoMaybeDestroy v true true compact
  (r.1, r.2.2)

/-- OrientedGraph::DestroyVertex called with its default NULL edge-count
out-parameters: the connection scan is skipped entirely. -/
def OG.destroyVertex (g : OG) (v : ℕ) : OG :=
  (g.getVertexInfoMaybeDestroy v false true true).1

/-! ### Layer 3: DirectedAcyclicGraph (DirectedAcyclicGraph.hpp) -/

/-- canreachClean = vertexTypeOne. -/
def canreachClean : ℕ := vertexTypeOne

/-- canreachMayHaveFalsePositives = vertexTypeTwo. -/
def canreachMayHaveFalsePositives : ℕ := vertexTypeTwo

/-- ExtraTristate::isReachableWithoutEdge. -/
def isReachableWithoutEdge : ℕ := 0

/-- ExtraTristate::notReachableWithoutEdge. -/
def notReachableWithoutEdge : ℕ := 1

/-- DirectedAcyclicGraph state: the inherited OrientedGraph (the data graph)
plus the m_canreach sidestructure. -/
structure DAG where
  data : OG
  canreach : OG
  deriving Repr, DecidableEq

/-- DirectedAcyclicGraph constructor. -/
def dagNew (initialSize : ℕ) : DAG := ⟨ogNew initialSize, ogNew initialSize⟩

/-- DirectedAcyclicGraph::GetTristateForConnection (reads the canreach cell
of a physically edged pair). -/
def DAG.getTristateForConnection (d : DAG) (f t : ℕ) : ℕ :=
  if d.canreach.hasLinkage f t then
    if d.canreach.forwardEdgeB f t then 1
    else if d.canreach.reverseEdgeB f t then 2
    else 0
  else 0

/-- DirectedAcyclicGraph::SetTristateForConnection. -/
def DAG.setTristateForConnection (d : DAG) (f t x : ℕ) : DAG :=
  let forward := d.canreach.forwardEdgeB f t
  let reverse := d.canreach.reverseEdgeB f t
  if x = 0 then
    let cr := if forward then (d.canreach.clearEdge f t).1 else d.canreach
    let cr := if reverse then (cr.clearEdge t f).1 else cr
    ⟨d.data, cr⟩
  else if x = 1 then
    let cr := if reverse then (d.canreach.clearEdge t f).1 else d.canreach
    ⟨d.data, (cr.setEdge f t).1⟩
  else if x = 2 then
    let cr := if forward then (d.canreach.clearEdge f t).1 else d.canreach
    ⟨d.data, (cr.setEdge t f).1⟩
  else d

/-- DirectedAcyclicGraph::IncomingReachForVertexIncludingSelf: physical
incoming edges, plus canreach incoming edges with no physical linkage, plus
the vertex itself (ascending, as a std::set). -/
def DAG.incomingReachForVertexIncludingSelf (d : DAG) (v : ℕ) : List ℕ :=
  let bnd := max (max d.data.firstInvalid d.canreach.firstInvalid) (v + 1)
  (List.range bnd).filter (fun u =>
    u == v || d.data.isIncomingEdge v u ||
      (d.canreach.isIncomingEdge v u && !(d.data.hasLinkage v u)))

/-- DirectedAcyclicGraph::OutgoingReachForVertexIncludingSelf. -/
def DAG.outgoingReachForVertexIncludingSelf (d : DAG) (v : ℕ) : List ℕ :=
  let bnd := max (max d.data.firstInvalid d.canreach.firstInvalid) (v + 1)
  (List.range bnd).filter (fun u =>
    u == v || d.data.isOutgoingEdge v u ||
      (d.canreach.isOutgoingEdge v u && !(d.data.hasLinkage u v)))

/-- DirectedAcyclicGraph::CleanUpReachability, with explicit recursion fuel
(the C++ recursion into dirty physical children terminates because the data
graph is acyclic).  Follows the compiled CACHE_REACH_WITHOUT_LINK path,
including the per-edge tristate downgrade pass over the map of outgoing
reach sets. -/
def DAG.cleanUpReachability : ℕ → DAG → ℕ → ℕ → DAG
  | 0, d, _, _ => d
  | fuel + 1, d, fromV, toV =>
    let outgoingReachAndNoise := d.canreach.outgoingEdges fromV
    let d := outgoingReachAndNoise.foldl
      (fun (d : DAG) w =>
        if d.data.hasLinkage fromV w then d
        else ⟨d.data, (d.canreach.clearEdge fromV w).1⟩) d
    let outgoing := d.data.outgoingEdges fromV
    let step := outgoing.foldl
      (fun (acc : DAG × List (ℕ × List ℕ)) c =>
        let d := acc.1
        let mp := acc.2
        let d :=
          if d.canreach.getVertexType c = canreachMayHaveFalsePositives
          then DAG.cleanUpReachability fuel d c toV else d
        let outgoingForOutgoing := d.outgoingReachForVertexIncludingSelf c
        let mp := mp ++ [(c, outgoingForOutgoing)]
        let d := outgoingForOutgoing.foldl
          (fun (d : DAG) w =>
            if w = c then d
            else if d.data.edgeExists fromV w then d
            else
              let d :=
                if d.canreach.edgeExists w fromV
                then ⟨d.data, (d.canreach.clearEdge w fromV).1⟩ else d
              ⟨d.data, (d.canreach.setEdge fromV w).1⟩) d
        (d, mp))
      (d, ([] : List (ℕ × List ℕ)))
    let d := step.1
    let mp := step.2
    let d := mp.foldl
      (fun (d : DAG) pr =>
        if d.getTristateForConnection fromV pr.1 = isReachableWithoutEdge then
          let foundOtherPath :=
            mp.any (fun other => other.1 != pr.1 && other.2.contains pr.1)
          if foundOtherPath then d
          else d.setTristateForConnection fromV pr.1 notReachableWithoutEdge
        else d) d
    ⟨d.data, d.canreach.setVertexType fromV canreachClean⟩

/-- DirectedAcyclicGraph::CanReach (the cached implementation compiled under
CACHE_REACHABILITY).  May clean a dirty row, so it returns the new state. -/
def DAG.canReach (fuel : ℕ) (d : DAG) (f t : ℕ) : DAG × Bool :=
  if d.data.hasLinkage f t then (d, d.data.forwardEdgeB f t)
  else if d.canreach.getVertexType f = canreachClean then (d, d.canreach.edgeExists f t)
  else if d.canreach.getVertexType f = canreachMayHaveFalsePositives then
    if !(d.canreach.edgeExists f t) then (d, false)
    else
      let d := DAG.cleanUpReachability fuel d f t
      (d, d.canreach.edgeExists f t)
  else (d, false)

/-- Inner loop body of the fallback DFS CanReach: iterate the outgoing set of
the popped vertex, returning early on the target and otherwise pushing
unvisited vertices. -/
def dfsInner (toV : ℕ) (outs : List ℕ) (visited stack : List ℕ) :
    Bool × List ℕ × List ℕ :=
  outs.foldl
    (fun (acc : Bool × List ℕ × List ℕ) w =>
      if acc.1 then acc
      else if w = toV then (true, acc.2.1, acc.2.2)
      else if acc.2.1.contains w then acc
      else (false, w :: acc.2.1, w :: acc.2.2))
    (false, visited, stack)

/-- Main loop of the fallback DFS CanReach (LIFO stack, visited set), with
fuel standing for the loop bound. -/
def canReachDFSLoop : ℕ → OG → ℕ → List ℕ → List ℕ → Bool
  | 0, _, _, _, _ => false
  | fuel + 1, g, toV, visited, stack =>
    match stack with
    | [] => false
    | sv :: rest =>
      let r := dfsInner toV (g.outgoingEdges sv) visited rest
      if r.1 then true else canReachDFSLoop fuel g toV r.2.1 r.2.2

/-- DirectedAcyclicGraph::CanReach, the plain DFS implementation compiled
when DIRECTEDACYCLICGRAPH_CACHE_REACHABILITY is 0 (assert from != to is a
precondition). -/
def OG.canReachViaDFS (g : OG) (fuel f t : ℕ) : Bool :=
  canReachDFSLoop fuel g t [] [f]

/-- Result of DirectedAcyclicGraph::SetEdge: the bad_cycle exception, the
false return for an already existing edge, or the true return. -/
inductive SetEdgeOutcome
  | cycleError
  | alreadyExisted
  | added
  deriving Repr, DecidableEq

/-- DirectedAcyclicGraph::SetEdge under the compiled configuration
(CACHE_REACHABILITY and CACHE_REACH_WITHOUT_LINK).  Note the upgrade loop
faithfully calls the inherited, unqualified SetVertexType — i.e. it writes
the DATA graph's existence cell, not m_canreach's. -/
def DAG.setEdge (fuel : ℕ) (d : DAG) (f t : ℕ) : DAG × SetEdgeOutcome :=
  let chk := DAG.canReach fuel d t f
  let d := chk.1
  if chk.2 then (d, .cycleError)
  else
    let reachablePriorToEdge := d.canreach.edgeExists f t
    let ds := d.data.setEdge f t
    let d : DAG := ⟨ds.1, d.canreach⟩
    if !ds.2 then (d, .alreadyExisted)
    else
      let d :=
        if reachablePriorToEdge then d.setTristateForConnection f t isReachableWithoutEdge
        else d.setTristateForConnection f t notReachableWithoutEdge
      let toCanreach := d.outgoingReachForVertexIncludingSelf t
      let vertexTypeTo := d.canreach.getVertexType t
      let canreachFrom := d.incomingReachForVertexIncludingSelf f
      let vertexTypeFrom := d.canreach.getVertexType f
      let d := canreachFrom.foldl
        (fun (d : DAG) a =>
          let outs := d.data.outgoingEdges a
          let d := outs.foldl
            (fun (d : DAG) x =>
              if x = t ∧ a = f then d
              else if toCanreach.contains x then
                let d := d.setTristateForConnection a x isReachableWithoutEdge
                if vertexTypeTo = canreachMayHaveFalsePositives
                then ⟨d.data.setVertexType a canreachMayHaveFalsePositives, d.canreach⟩
                else d
              else d) d
          let d := toCanreach.foldl
            (fun (d : DAG) b =>
              let fwd := d.data.forwardEdgeB a b
              let rev := d.data.reverseEdgeB a b
              if fwd then d
              else
                let vtb := d.canreach.getVertexType b
                let d :=
                  if vtb = canreachMayHaveFalsePositives
                  then ⟨d.data, (d.canreach.clearEdge b a).1⟩ else d
                if rev then d
                else
                  let vta := d.canreach.getVertexType a
                  let newType :=
                    if vta = canreachClean ∧ vertexTypeTo = canreachClean ∧
                        vertexTypeFrom = canreachClean
                    then canreachClean else canreachMayHaveFalsePositives
                  let cr := d.canreach.setVertexType a newType
                  ⟨d.data, (cr.setEdge a b).1⟩) d
          d) d
      (d, .added)

/-- DirectedAcyclicGraph::ClearEdge under the compiled configuration,
including the clean-and-reachable-without-edge fast path. -/
def DAG.clearEdge (d : DAG) (f t : ℕ) : DAG × Bool :=
  if !(d.data.edgeExists f t) then (d, false)
  else
    let extra := d.getTristateForConnection f t
    let d := d.setTristateForConnection f t 0
    let d : DAG := ⟨(d.data.clearEdge f t).1, d.canreach⟩
    let vertexTypeFrom := d.canreach.getVertexType f
    if vertexTypeFrom = canreachClean ∧ extra = isReachableWithoutEdge then
      (⟨d.data, (d.canreach.setEdge f t).1⟩, true)
    else
      let canreachFrom := d.incomingReachForVertexIncludingSelf f
      let d := canreachFrom.foldl
        (fun (d : DAG) a =>
          ⟨d.data, d.canreach.setVertexType a canreachMayHaveFalsePositives⟩) d
      let d :=
        if d.canreach.edgeExists t f
        then ⟨d.data, (d.canreach.clearEdge t f).1⟩ else d
      (⟨d.data, (d.canreach.setEdge f t).1⟩, true)

/-- DirectedAcyclicGraph::CreateVertexEx: create in data with the user tag
and in canreach with canreachClean. -/
def DAG.createVertexEx (d : DAG) (v vt : ℕ) : DAG :=
  ⟨d.data.createVertexEx v vt, d.canreach.createVertexEx v canreachClean⟩

/-- DirectedAcyclicGraph::CreateVertex. -/
def DAG.createVertex (d : DAG) (v : ℕ) : DAG := d.createVertexEx v vertexTypeOne

/-- DirectedAcyclicGraph::DestroyVertexEx: destroy in data (forwarding the
caller's edge-count pointers, modelled by `wantCounts`) and in canreach
(always with non-null count pointers). -/
def DAG.destroyVertexEx (d : DAG) (v : ℕ) (compact wantCounts : Bool) : DAG :=
  ⟨(d.data.getVertexInfoMaybeDestroy v wantCounts true compact).1,
   (d.canreach.getVertexInfoMaybeDestroy v true true compact).1⟩

/-- DirectedAcyclicGraph::DestroyVertex with its default NULL edge-count
out-parameters. -/
def DAG.destroyVertex (d : DAG) (v : ℕ) : DAG := d.destroyVertexEx v true false

/-- DirectedAcyclicGraph::SetCapacityForMaxValidVertexID override. -/
def DAG.setCapacityForMaxValidVertexID (d : DAG) (v : ℕ) : DAG :=
  ⟨d.data.setCapacityForMaxValidVertexID v, d.canreach.setCapacityForMaxValidVertexID v⟩

/-- DirectedAcyclicGraph::SetCapacitySoVertexIsFirstInvalidID override.
Faithful to the source: the sidestructure is resized with
SetCapacityForMaxValidVertexID(vertexL), not SetCapacitySoVertexIsFirstInvalidID. -/
def DAG.setCapacitySoVertexIsFirstInvalidID (d : DAG) (v : ℕ) : DAG :=
  ⟨d.data.setCapacitySoVertexIsFirstInvalidID v, d.canreach.setCapacityForMaxValidVertexID v⟩

/-- DirectedAcyclicGraph::GrowCapacityForMaxValidVertexID override. -/
def DAG.growCapacityForMaxValidVertexID (d : DAG) (v : ℕ) : DAG :=
  ⟨d.data.growCapacityForMaxValidVertexID v, d.canreach.setCapacityForMaxValidVertexID v⟩

/-- DirectedAcyclicGraph::ShrinkCapacitySoVertexIsFirstInvalidID override. -/
def DAG.shrinkCapacitySoVertexIsFirstInvalidID (d : DAG) (v : ℕ) : DAG :=
  ⟨d.data.shrinkCapacitySoVertexIsFirstInvalidID v,
   d.canreach.shrinkCapacitySoVertexIsFirstInvalidID v⟩

/-- True reachability in a graph: there is a nonempty directed path of
physical edges. -/
def OG.Reaches (g : OG) (a b : ℕ) : Prop :=
  Relation.TransGen (fun x y => g.edgeExists x y = true) a b

/-! ### Contract-checked query variants.

OrientedGraph::HasLinkage opens with three assertions:
assert(fromVertex != toVertex), assert(VertexExists(fromVertex)),
assert(VertexExists(toVertex)).  The checked variants return `none` exactly
when one of these contract checks fails, in source order. -/

/-- OrientedGraph::HasLinkage with its three leading assertions made explicit. -/
def OG.hasLinkageChk (g : OG) (f t : ℕ) : Option Bool :=
  if f = t then none
  else if !(g.vertexExists f) then none
  else if !(g.vertexExists t) then none
  else some (g.hasLinkage f t)

/-- OrientedGraph::EdgeExists: calls HasLinkage (inheriting its contract
checks) and returns the forwardEdge out-parameter. -/
def OG.edgeExistsChk (g : OG) (f t : ℕ) : Option Bool :=
  match g.hasLinkageChk f t with
  | none => none
  | some linked => some (linked && g.forwardEdgeB f t)

/-- The cached DirectedAcyclicGraph::CanReach with the contract checks of its
opening HasLinkage(fromVertex, toVertex) call made explicit; the remainder is
the canreach consultation of DAG.canReach. -/
def DAG.canReachChk (fuel : ℕ) (d : DAG) (f t : ℕ) : Option (DAG × Bool) :=
  match d.data.hasLinkageChk f t with
  | none => none
  | some linked =>
    if linked then some (d, d.data.forwardEdgeB f t)
    else if d.canreach.getVertexType f = canreachClean then
      some (d, d.canreach.edgeExists f t)
    else if d.canreach.getVertexType f = canreachMayHaveFalsePositives then
      if !(d.canreach.edgeExists f t) then some (d, false)
      else
        let d := DAG.cleanUpReachability fuel d f t
        some (d, d.canreach.edgeExists f t)
    else some (d, false)

/-! ### Claim-side definitions (stated from the specification's words, to be
compared with the behaviour of the source-translated operations). -/

/-- Spec side: one plus the largest live vertex id strictly below the bound,
or 0 when no live vertex remains. -/
def onePlusLargestLive (g : OG) : ℕ → ℕ
  | 0 => 0
  | k + 1 => if g.existenceCell k ≠ 0 then k + 1 else onePlusLargestLive g k

/-- All cells with index in [lo, hi) are zero. -/
def zeroFromIdx (g : OG) (lo hi : ℕ) : Bool :=
  (List.range' lo (hi - lo)).all (fun i => g.cell i == 0)

/-- Spec side: the smallest v' such that every cell from E(v') up to E(n) is
zero (n when no smaller v' qualifies). -/
def smallestZeroSuffix (g : OG) (n : ℕ) : ℕ :=
  ((List.range (n + 1)).filter (fun v => zeroFromIdx g (tifE v) (tifE n))).headD n

/-! ### Operation sequences for NstateArray (claim C8). -/

/-- One public NstateArray mutation: an element write through operator[]
(whose assert requires pos < m_max, and whose Nstate<3> argument is < 3), or
a ResizeWithZeros call. -/
inductive NAOp where
  | write (pos t : ℕ)
  | resize (mx : ℕ)
  deriving Repr, DecidableEq

/-- Apply one operation; a contract-violating write (out-of-range index or
digit value outside the Nstate range, both asserted in the source) is a
no-op. -/
def NA.applyOp (na : NA) : NAOp → NA
  | .write pos t => if pos < na.mmax ∧ t < 3 then na.write pos t else na
  | .resize mx => na.resizeWithZeros mx

/-- Run an operation sequence from a freshly constructed NstateArray. -/
def runOps (sz : ℕ) (ops : List NAOp) : NA :=
  ops.foldl NA.applyOp (naNew sz)

/-- Well-formedness of an NstateArray state: the buffer has exactly the
word count ResizeWithZeros maintains, every packed word is a valid radix-3
packing, and every element position at or beyond m_max reads zero. -/
def NAWf (na : NA) : Prop :=
  na.buffer.length
      = na.mmax / nstatesInPackedType
        + (if na.mmax % nstatesInPackedType = 0 then 0 else 1) ∧
  (∀ w ∈ na.buffer, w < 3 ^ nstatesInPackedType) ∧
  (∀ i, na.mmax ≤ i → na.read i = 0)

/-! ### Concrete operation traces used as failing inputs. -/

/-- Trace for claims C2 and C3: on a DirectedAcyclicGraph, create vertices
0, 1, 2; set_edge(0,1); set_edge(1,2); destroy_vertex(0) through the public
DestroyVertex default (NULL edge-count out-parameters); create_vertex(0)
again.  The data graph's edges 0→1 and 1→2 were never cleared by the
destroy, so they come back to life with the recreated vertex, while the
canreach rows incident to 0 were cleared. -/
def resurrectionTrace : DAG :=
  let d := (((dagNew 3).createVertex 0).createVertex 1).createVertex 2
  let d := (d.setEdge 100 0 1).1
  let d := (d.setEdge 100 1 2).1
  let d := d.destroyVertex 0
  d.createVertex 0

/-- Shared prefix for claims C9 and C1: create vertices 0..3;
set_edge(0,2); set_edge(1,3); set_edge(3,2); clear_edge(3,2).  After this,
canreach tags of 1 and 3 are dirty, vertex 0 is clean, and the stale
canreach cell 3→2 survives as an allowed false positive. -/
def upgradePre : DAG :=
  let d := ((((dagNew 4).createVertex 0).createVertex 1).createVertex 2).createVertex 3
  let d := (d.setEdge 100 0 2).1
  let d := (d.setEdge 100 1 3).1
  let d := (d.setEdge 100 3 2).1
  (d.clearEdge 3 2).1

/-- Trace for claim C1: continue upgradePre with set_edge(0,3) (whose
reach-without-link upgrade loop falsely promotes the tristate of the edge
(0,2) to isReachableWithoutEdge while leaving vertex 0's canreach tag clean)
and then clear_edge(0,2) (whose fast path therefore records the false
positive 0→2 as a clean closure bit). -/
def upgradeTrace : DAG :=
  let d := (upgradePre.setEdge 100 0 3).1
  (d.clearEdge 0 2).1

/-- Trace for claim C4, on a plain OrientedGraph: create vertices 0, 1, 2
and set the edge 0→1. -/
def destroyTraceOG : OG :=
  ((((ogNew 3).createVertex 0).createVertex 1).createVertex 2).setEdge 0 1 |>.1

/-- Trace for claim C5's counterexample, on a plain OrientedGraph: create
vertices 0, 1, 2 and set the edge 0→2. -/
def compactTraceOG : OG :=
  ((((ogNew 3).createVertex 0).createVertex 1).createVertex 2).setEdge 0 2 |>.1

/-! ## Theorems -/

/-! ### Packing arithmetic (claims C7, C8). -/

/-- Splitting a division along a power decomposition. -/
lemma div_pow_split (B L k m : ℕ) (hk : k ≤ m) :
    (B * 3 ^ m + L) / 3 ^ k = B * 3 ^ (m - k) + L / 3 ^ k := by
  have h3 : (3 : ℕ) ^ m = 3 ^ (m - k) * 3 ^ k := by
    rw [← pow_add]
    congr 1
    omega
  have h : B * 3 ^ m + L = L + 3 ^ k * (B * 3 ^ (m - k)) := by rw [h3]; ring
  rw [h, Nat.add_mul_div_left _ _ (by positivity)]
  ring

/-- Adding a multiple of a positive power of three does not change the
residue mod 3. -/
lemma add_mul_pow_mod_three (X Y j : ℕ) (hj : 0 < j) :
    (X + Y * 3 ^ j) % 3 = X % 3 := by
  have h : Y * 3 ^ j = Y * 3 ^ (j - 1) * 3 := by
    rw [mul_assoc, ← pow_succ]
    congr 2
    omega
  rw [h, Nat.add_mul_mod_self_right]

/-- On valid packed words, reading digit d is division by 3^d followed by
reduction mod 3. -/
lemma getDigit_eq_div_mod (q d : ℕ) (hq : q < 3 ^ 20) (hd : d < 20) :
    GetDigitInPackedValue q d = q / 3 ^ d % 3 := by
  unfold GetDigitInPackedValue powerForDigit nstatesInPackedType
  by_cases h : d < 19
  · simp only [if_pos (by omega : d < 20 - 1)]
    rw [pow_succ]
    exact Nat.mod_mul_right_div_self q (3 ^ d) 3
  · have hd19 : d = 19 := by omega
    subst hd19
    simp only [if_neg (by omega : ¬ (19 < 20 - 1))]
    have hlt : q / 3 ^ 19 < 3 := by
      apply Nat.div_lt_of_lt_mul
      calc q < 3 ^ 20 := hq
        _ = 3 * 3 ^ 19 := by ring
    exact (Nat.mod_eq_of_lt hlt).symm

/-- On valid inputs SetDigitInPackedValue does not overflow and splits into
the digit decomposition around position d. -/
lemma setDigit_eq (p d t : ℕ) (hp : p < 3 ^ 20) (hd : d < 20) (ht : t < 3) :
    SetDigitInPackedValue p d t = (p / 3 ^ (d + 1) * 3 + t) * 3 ^ d + p % 3 ^ d ∧
    (p / 3 ^ (d + 1) * 3 + t) * 3 ^ d + p % 3 ^ d < 3 ^ 20 := by
  have hA : p / 3 ^ (d + 1) * 3 + t < 3 ^ (20 - d) := by
    have hdiv : p / 3 ^ (d + 1) < 3 ^ (19 - d) := by
      apply Nat.div_lt_of_lt_mul
      calc p < 3 ^ 20 := hp
        _ = 3 ^ (d + 1) * 3 ^ (19 - d) := by rw [← pow_add]; congr 1; omega
    have h20d : (3 : ℕ) ^ (20 - d) = 3 ^ (19 - d) * 3 := by rw [← pow_succ]; congr 1; omega
    rw [h20d]
    omega
  have hlt : (p / 3 ^ (d + 1) * 3 + t) * 3 ^ d + p % 3 ^ d < 3 ^ 20 := by
    have hL : p % 3 ^ d < 3 ^ d := Nat.mod_lt _ (by positivity)
    have h20 : (3 : ℕ) ^ (20 - d) * 3 ^ d = 3 ^ 20 := by rw [← pow_add]; congr 1; omega
    calc (p / 3 ^ (d + 1) * 3 + t) * 3 ^ d + p % 3 ^ d
        < (p / 3 ^ (d + 1) * 3 + t) * 3 ^ d + 3 ^ d := by omega
      _ = (p / 3 ^ (d + 1) * 3 + t + 1) * 3 ^ d := by ring
      _ ≤ 3 ^ (20 - d) * 3 ^ d := Nat.mul_le_mul_right _ (by omega)
      _ = 3 ^ 20 := h20
  refine ⟨?_, hlt⟩
  unfold SetDigitInPackedValue powerForDigit nstatesInPackedType
  have hmod : ∀ x : ℕ, x < 3 ^ 20 → x % 2 ^ 32 = x := fun x hx =>
    Nat.mod_eq_of_lt (lt_trans hx (by norm_num))
  by_cases h : d < 19
  · simp only [if_pos (by omega : d < 20 - 1)]
    have hup : p / 3 ^ (d + 1) * 3 ^ (d + 1) = p / 3 ^ (d + 1) * 3 * 3 ^ d := by
      rw [pow_succ]
      ring
    have hlow : (if 0 < d then p % 3 ^ d else 0) = p % 3 ^ d := by
      rcases Nat.eq_zero_or_pos d with h0 | h0
      · subst h0
        simp [Nat.mod_one]
      · rw [if_pos h0]
    rw [hup, hlow]
    have harr : p / 3 ^ (d + 1) * 3 * 3 ^ d + t * 3 ^ d + p % 3 ^ d
        = (p / 3 ^ (d + 1) * 3 + t) * 3 ^ d + p % 3 ^ d := by ring
    rw [harr, hmod _ hlt]
  · have hd19 : d = 19 := by omega
    subst hd19
    simp only [if_neg (by omega : ¬ (19 < 20 - 1)), if_pos (by omega : (0 : ℕ) < 19)]
    have hdiv0 : p / 3 ^ (19 + 1) = 0 := Nat.div_eq_of_lt hp
    have hsmall : 0 + t * 3 ^ 19 + p % 3 ^ 19 < 3 ^ 20 := by
      have hL : p % 3 ^ 19 < 3 ^ 19 := Nat.mod_lt _ (by positivity)
      have h320 : (3 : ℕ) ^ 20 = 3 * 3 ^ 19 := by ring
      omega
    rw [hmod _ hsmall, hdiv0]
    ring

/-- SetDigitInPackedValue stays in the valid packed range on valid inputs. -/
lemma setDigit_lt (p d t : ℕ) (hp : p < 3 ^ 20) (hd : d < 20) (ht : t < 3) :
    SetDigitInPackedValue p d t < 3 ^ 20 := by
  obtain ⟨heq, hlt⟩ := setDigit_eq p d t hp hd ht
  rw [heq]
  exact hlt

/-- Round-trip at the written digit. -/
lemma getDigit_setDigit_self (p d t : ℕ) (hp : p < 3 ^ 20) (hd : d < 20) (ht : t < 3) :
    GetDigitInPackedValue (SetDigitInPackedValue p d t) d = t := by
  obtain ⟨heq, hlt⟩ := setDigit_eq p d t hp hd ht
  set A := p / 3 ^ (d + 1) * 3 + t with hA
  set q := A * 3 ^ d + p % 3 ^ d with hqdef
  rw [heq, getDigit_eq_div_mod _ d hlt hd]
  have hdq : q / 3 ^ d = A := by
    rw [hqdef]
    have h := div_pow_split A (p % 3 ^ d) d d le_rfl
    simpa [Nat.div_eq_of_lt (Nat.mod_lt p (by positivity : (0:ℕ) < 3 ^ d))] using h
  rw [hdq, hA]
  have hmt : (p / 3 ^ (d + 1) * 3 + t) % 3 = t % 3 := by
    rw [add_comm, Nat.add_mul_mod_self_right]
  rw [hmt, Nat.mod_eq_of_lt ht]

/-- Digits other than the written one are unchanged. -/
lemma getDigit_setDigit_ne (p d t d2 : ℕ) (hp : p < 3 ^ 20) (hd : d < 20) (ht : t < 3)
    (hd2 : d2 < 20) (hne : d2 ≠ d) :
    GetDigitInPackedValue (SetDigitInPackedValue p d t) d2 = GetDigitInPackedValue p d2 := by
  obtain ⟨heq, hlt⟩ := setDigit_eq p d t hp hd ht
  set A := p / 3 ^ (d + 1) * 3 + t with hA
  set q := A * 3 ^ d + p % 3 ^ d with hqdef
  have hd2' : d2 < 20 := hd2
  rw [heq, getDigit_eq_div_mod _ d2 hlt hd2', getDigit_eq_div_mod p d2 hp hd2']
  rcases Nat.lt_or_ge d2 d with hlt2 | hge
  · have hsplitq : q / 3 ^ d2 = A * 3 ^ (d - d2) + p % 3 ^ d / 3 ^ d2 :=
      div_pow_split A (p % 3 ^ d) d2 d (le_of_lt hlt2)
    have hsplitp : p / 3 ^ d2 = p / 3 ^ d * 3 ^ (d - d2) + p % 3 ^ d / 3 ^ d2 := by
      have h := div_pow_split (p / 3 ^ d) (p % 3 ^ d) d2 d (le_of_lt hlt2)
      have hpd : p / 3 ^ d * 3 ^ d + p % 3 ^ d = p := Nat.div_add_mod' p (3 ^ d)
      rw [hpd] at h
      exact h
    rw [hsplitq, hsplitp]
    have hj : 0 < d - d2 := by omega
    rw [add_comm (A * 3 ^ (d - d2)), add_mul_pow_mod_three _ _ _ hj,
      add_comm (p / 3 ^ d * 3 ^ (d - d2)), add_mul_pow_mod_three _ _ _ hj]
  · have hgt : d < d2 := by omega
    have hq2 : q / 3 ^ d2 = p / 3 ^ d2 := by
      have hrest : t * 3 ^ d + p % 3 ^ d < 3 ^ (d + 1) := by
        have hL : p % 3 ^ d < 3 ^ d := Nat.mod_lt _ (by positivity)
        have ht2 : t * 3 ^ d ≤ 2 * 3 ^ d := Nat.mul_le_mul_right _ (by omega)
        have hps : (3 : ℕ) ^ (d + 1) = 3 * 3 ^ d := by ring
        omega
      have hqsplit : q = p / 3 ^ (d + 1) * 3 ^ (d + 1) + (t * 3 ^ d + p % 3 ^ d) := by
        rw [hqdef, hA, pow_succ]
        ring
      have hqd1 : q / 3 ^ (d + 1) = p / 3 ^ (d + 1) := by
        rw [hqsplit]
        have h := div_pow_split (p / 3 ^ (d + 1)) (t * 3 ^ d + p % 3 ^ d) (d + 1) (d + 1) le_rfl
        simpa [Nat.div_eq_of_lt hrest] using h
      have hd2split : (3 : ℕ) ^ d2 = 3 ^ (d + 1) * 3 ^ (d2 - (d + 1)) := by
        rw [← pow_add]
        congr 1
        omega
      rw [hd2split, ← Nat.div_div_eq_div_mul, ← Nat.div_div_eq_div_mul, hqd1]
    rw [hq2]

/-- Reading any digit of the zero word yields zero. -/
lemma getDigit_zero (d : ℕ) : GetDigitInPackedValue 0 d = 0 := by
  unfold GetDigitInPackedValue
  simp

/-- getD after set at the written index. -/
lemma getD_set_self (l : List ℕ) (i x : ℕ) (h : i < l.length) :
    (l.set i x).getD i 0 = x := by
  rw [List.getD_eq_getD_get?, List.get?_set_eq_of_lt x h]
  rfl

/-- getD after set at a different index. -/
lemma getD_set_ne (l : List ℕ) (i j x : ℕ) (h : i ≠ j) :
    (l.set i x).getD j 0 = l.getD j 0 := by
  rw [List.getD_eq_getD_get?, List.getD_eq_getD_get?, List.get?_set_ne x l h]

/-- Word slots of a valid buffer (or the default zero) are valid packed words. -/
lemma getD_words_lt (l : List ℕ) (h : ∀ w ∈ l, w < 3 ^ 20) (idx : ℕ) :
    l.getD idx 0 < 3 ^ 20 := by
  rcases Nat.lt_or_ge idx l.length with hlt | hge
  · rw [List.getD_eq_getElem l 0 hlt]
    exact h _ (List.getElem_mem hlt)
  · rw [List.getD_eq_default l 0 hge]
    positivity

/-- Writing a then reading the same element (in-range word). -/
lemma NA.read_write_self (na : NA) (pos t : ℕ)
    (hwords : ∀ w ∈ na.buffer, w < 3 ^ 20) (ht : t < 3)
    (hlen : pos / nstatesInPackedType < na.buffer.length) :
    (na.write pos t).read pos = t := by
  unfold NA.read NA.write
  rw [getD_set_self _ _ _ hlen]
  exact getDigit_setDigit_self _ _ _ (getD_words_lt _ hwords _)
    (Nat.mod_lt _ (by norm_num [nstatesInPackedType])) ht

/-- Writing one element does not change any other element. -/
lemma NA.read_write_ne (na : NA) (pos t i : ℕ)
    (hwords : ∀ w ∈ na.buffer, w < 3 ^ 20) (ht : t < 3) (hne : i ≠ pos) :
    (na.write pos t).read i = na.read i := by
  unfold NA.read NA.write
  simp only [nstatesInPackedType] at hne ⊢
  rcases Nat.lt_or_ge (pos / 20) na.buffer.length with hlen | hlen
  · by_cases hw : i / 20 = pos / 20
    · rw [hw, getD_set_self _ _ _ hlen]
      have hdig : i % 20 ≠ pos % 20 := by omega
      exact getDigit_setDigit_ne _ _ _ _ (getD_words_lt _ hwords _)
        (by omega) ht (by omega) hdig
    · rw [getD_set_ne _ _ _ _ (Ne.symm hw)]
  · rw [List.set_eq_of_length_le hlen]

/-- Length of listResize. -/
lemma listResize_length (l : List ℕ) (n : ℕ) : (listResize l n).length = n := by
  unfold listResize
  simp only [List.length_append, List.length_take, List.length_replicate]
  omega

/-- listResize at the full length is the identity. -/
lemma listResize_self (l : List ℕ) : listResize l l.length = l := by
  unfold listResize
  simp

/-- Words of listResize are words of the original or zero. -/
lemma listResize_words (l : List ℕ) (n : ℕ) (h : ∀ w ∈ l, w < 3 ^ 20) :
    ∀ w ∈ listResize l n, w < 3 ^ 20 := by
  intro w hw
  unfold listResize at hw
  rcases List.mem_append.1 hw with h1 | h2
  · exact h _ (List.mem_of_mem_take h1)
  · rcases (List.mem_replicate.1 h2) with ⟨_, rfl⟩
    positivity

/-- getD of listResize below both bounds. -/
lemma listResize_getD_lt (l : List ℕ) (n i : ℕ) (h1 : i < n) (h2 : i < l.length) :
    (listResize l n).getD i 0 = l.getD i 0 := by
  unfold listResize
  rw [List.getD_append _ _ _ _ (by rw [List.length_take]; omega),
    List.getD_eq_getD_get?, List.getD_eq_getD_get?]
  congr 1
  rw [List.get?_eq_getElem?, List.get?_eq_getElem?]
  exact List.getElem?_take_of_lt h1

/-- getD of listResize at or beyond the original length is zero. -/
lemma listResize_getD_pad (l : List ℕ) (n i : ℕ) (h1 : l.length ≤ i) :
    (listResize l n).getD i 0 = 0 := by
  rcases Nat.lt_or_ge i n with hin | hin
  · unfold listResize
    rw [List.getD_append_right _ _ _ _ (by rw [List.length_take]; omega)]
    rcases Nat.lt_or_ge (i - (l.take n).length) (n - l.length) with hrep | hrep
    · rw [List.getD_eq_getElem _ 0 (by simpa using hrep), List.getElem_replicate]
    · rw [List.getD_eq_default _ 0 (by simpa using hrep)]
  · rw [List.getD_eq_default _ 0 (by rw [listResize_length]; omega)]

/-- Folding digit zeroing keeps the word in the valid range. -/
lemma zeroDigits_foldl_lt (ds : List ℕ) (w : ℕ) (hw : w < 3 ^ 20) (hds : ∀ d ∈ ds, d < 20) :
    ds.foldl (fun acc d => SetDigitInPackedValue acc d 0) w < 3 ^ 20 := by
  induction ds generalizing w with
  | nil => simpa using hw
  | cons d ds ih =>
    simp only [List.foldl_cons]
    exact ih _ (setDigit_lt _ _ _ hw (hds d (by simp)) (by norm_num))
      (fun x hx => hds x (by simp [hx]))

/-- Folding digit zeroing zeroes exactly the listed digits. -/
lemma zeroDigits_foldl_get (ds : List ℕ) (w : ℕ) (hw : w < 3 ^ 20) (hds : ∀ d ∈ ds, d < 20)
    (j : ℕ) (hj : j < 20) :
    GetDigitInPackedValue (ds.foldl (fun acc d => SetDigitInPackedValue acc d 0) w) j
      = if j ∈ ds then 0 else GetDigitInPackedValue w j := by
  induction ds generalizing w with
  | nil => simp
  | cons d ds ih =>
    simp only [List.foldl_cons]
    rw [ih _ (setDigit_lt _ _ _ hw (hds d (by simp)) (by norm_num))
      (fun x hx => hds x (by simp [hx]))]
    by_cases hmem : j ∈ ds
    · simp [hmem]
    · by_cases hjd : j = d
      · subst hjd
        simp only [hmem, if_neg hmem, List.mem_cons, true_or, if_pos]
        exact getDigit_setDigit_self _ _ _ hw (hds j (by simp)) (by norm_num)
      · have hnc : j ∉ d :: ds := by simp [hjd, hmem]
        simp only [if_neg hmem, if_neg hnc]
        exact getDigit_setDigit_ne _ _ _ _ hw (hds d (by simp)) (by norm_num) hj hjd

/-- zeroDigitsFrom keeps the word valid. -/
lemma zeroDigitsFrom_lt (w lo hi : ℕ) (hw : w < 3 ^ 20) (hhi : hi ≤ 20) :
    zeroDigitsFrom w lo hi < 3 ^ 20 := by
  unfold zeroDigitsFrom
  apply zeroDigits_foldl_lt _ _ hw
  intro d hd
  rw [List.mem_range'_1] at hd
  omega

/-- Reading a digit of zeroDigitsFrom: zero inside the range, unchanged outside. -/
lemma getDigit_zeroDigitsFrom (w lo hi j : ℕ) (hw : w < 3 ^ 20) (hhi : hi ≤ 20) (hj : j < 20) :
    GetDigitInPackedValue (zeroDigitsFrom w lo hi) j
      = if lo ≤ j ∧ j < hi then 0 else GetDigitInPackedValue w j := by
  unfold zeroDigitsFrom
  rw [zeroDigits_foldl_get _ _ hw (fun d hd => by rw [List.mem_range'_1] at hd; omega) j hj]
  by_cases hc : lo ≤ j ∧ j < hi
  · rw [if_pos (by rw [List.mem_range'_1]; omega), if_pos hc]
  · rw [if_neg (by rw [List.mem_range'_1]; omega), if_neg hc]

/-- ResizeWithZeros: resulting length and m_max. -/
lemma resize_length (na : NA) (mx : ℕ) :
    (na.resizeWithZeros mx).buffer.length
      = mx / nstatesInPackedType + (if mx % nstatesInPackedType = 0 then 0 else 1) ∧
    (na.resizeWithZeros mx).mmax = mx := by
  unfold NA.resizeWithZeros
  constructor
  · simp only []
    split_ifs <;> simp [listResize_length]
  · rfl

/-- Setting one word to a digit-zeroed version of itself keeps all words valid. -/
lemma words_set_zeroDigits (l : List ℕ) (hl : ∀ w ∈ l, w < 3 ^ 20) (k lo hi : ℕ)
    (hhi : hi ≤ 20) :
    ∀ w ∈ l.set k (zeroDigitsFrom (l.getD k 0) lo hi), w < 3 ^ 20 := by
  intro w hw
  rcases List.mem_or_eq_of_mem_set hw with hmem | rfl
  · exact hl _ hmem
  · exact zeroDigitsFrom_lt _ _ _ (getD_words_lt _ hl _) hhi

/-- ResizeWithZeros keeps every word valid. -/
lemma resize_words (na : NA) (hwords : ∀ w ∈ na.buffer, w < 3 ^ 20) (mx : ℕ) :
    ∀ w ∈ (na.resizeWithZeros mx).buffer, w < 3 ^ 20 := by
  unfold NA.resizeWithZeros
  simp only [nstatesInPackedType]
  set nb := mx / 20 + (if mx % 20 = 0 then 0 else 1) with hnb
  set omd := if na.mmax % 20 = 0 ∧ 0 < na.mmax then 20 else na.mmax % 20 with homd
  set nmd := if mx % 20 = 0 ∧ 0 < mx then 20 else mx % 20 with hnmd
  have hlw := listResize_words na.buffer nb hwords
  have homd20 : omd ≤ 20 := by rw [homd]; split_ifs <;> omega
  split_ifs with h1 h2
  · exact words_set_zeroDigits _ hlw _ _ _ homd20
  · exact words_set_zeroDigits _ hlw _ _ _ le_rfl
  · exact hlw

/-- Master read lemma for ResizeWithZeros on well-formed arrays: elements
below both the old and new size are preserved, and everything else (freshly
exposed or out of range) reads zero. -/
lemma resize_read (na : NA) (hwf : NAWf na) (mx i : ℕ) :
    (na.resizeWithZeros mx).read i = if i < mx ∧ i < na.mmax then na.read i else 0 := by
  obtain ⟨L, n0⟩ := na
  obtain ⟨hlen, hwords, htail⟩ := hwf
  simp only [nstatesInPackedType] at hlen
  have hwords' : ∀ w ∈ L, w < 3 ^ 20 := hwords
  have htail' : ∀ j, n0 ≤ j → GetDigitInPackedValue (L.getD (j / 20) 0) (j % 20) = 0 := by
    intro j hj
    have h := htail j hj
    simpa [NA.read, nstatesInPackedType] using h
  unfold NA.resizeWithZeros NA.read
  simp only [nstatesInPackedType]
  set nb := mx / 20 + (if mx % 20 = 0 then 0 else 1) with hnb
  set omd := if n0 % 20 = 0 ∧ 0 < n0 then 20 else n0 % 20 with homd
  set nmd := if mx % 20 = 0 ∧ 0 < mx then 20 else mx % 20 with hnmd
  have hmx : (mx = 0 ∧ nb = 0 ∧ nmd = 0) ∨ (0 < mx ∧ mx % 20 = 0 ∧ nb = mx / 20 ∧ nmd = 20)
      ∨ (0 < mx ∧ mx % 20 ≠ 0 ∧ nb = mx / 20 + 1 ∧ nmd = mx % 20) := by
    rw [hnb, hnmd]
    rcases Nat.eq_zero_or_pos mx with h0 | h0
    · subst h0
      left
      norm_num
    · by_cases hm : mx % 20 = 0
      · right
        left
        simp [hm, h0]
      · right
        right
        simp [hm, h0]
  have hn : (n0 = 0 ∧ omd = 0 ∧ L.length = 0)
      ∨ (0 < n0 ∧ n0 % 20 = 0 ∧ omd = 20 ∧ L.length = n0 / 20)
      ∨ (0 < n0 ∧ n0 % 20 ≠ 0 ∧ omd = n0 % 20 ∧ L.length = n0 / 20 + 1) := by
    rw [homd]
    rcases Nat.eq_zero_or_pos n0 with h0 | h0
    · subst h0
      left
      simpa using hlen
    · by_cases hm : n0 % 20 = 0
      · right
        left
        rw [hlen]
        simp [hm, h0]
      · right
        right
        rw [hlen]
        simp [hm, h0]
  clear_value nb omd nmd
  clear hnb homd hnmd hlen htail
  set lr := listResize L nb with hlr
  have hlrlen : lr.length = nb := listResize_length L nb
  have hlrwords : ∀ w ∈ lr, w < 3 ^ 20 := listResize_words L nb hwords'
  have hlrget : ∀ w0, w0 < nb → w0 < L.length → lr.getD w0 0 = L.getD w0 0 := fun w0 a b =>
    listResize_getD_lt L nb w0 a b
  have hlrpad : ∀ w0, L.length ≤ w0 → lr.getD w0 0 = 0 := fun w0 a =>
    listResize_getD_pad L nb w0 a
  have hlrbeyond : ∀ w0, nb ≤ w0 → lr.getD w0 0 = 0 := fun w0 a =>
    List.getD_eq_default lr 0 (by omega)
  clear_value lr
  clear hlr
  by_cases hI : i < mx ∧ i < n0
  · rw [if_pos hI]
    have hidiv : i / 20 < nb := by omega
    have hidivL : i / 20 < L.length := by omega
    split_ifs with h1 h2
    · rcases Nat.lt_or_ge (i / 20) (nb - 1) with hlt | hge2
      · rw [getD_set_ne _ _ _ _ (by omega), hlrget _ hidiv hidivL]
      · have hteq : i / 20 = nb - 1 := by omega
        have hdignew : i % 20 < nmd := by omega
        rw [hteq, getD_set_self _ _ _ (by omega),
          getDigit_zeroDigitsFrom _ _ _ _ (getD_words_lt _ hlrwords _) (by omega) (by omega),
          if_neg (by omega), hlrget _ (by omega) (by omega)]
    · rcases Nat.lt_or_ge (i / 20) (nb - 1) with hlt | hge2
      · rw [getD_set_ne _ _ _ _ (by omega), hlrget _ hidiv hidivL]
      · have hteq : i / 20 = nb - 1 := by omega
        have hdignew : i % 20 < nmd := by omega
        rw [hteq, getD_set_self _ _ _ (by omega),
          getDigit_zeroDigitsFrom _ _ _ _ (getD_words_lt _ hlrwords _) (by omega) (by omega),
          if_neg (by omega), hlrget _ (by omega) (by omega)]
    · rw [hlrget _ hidiv hidivL]
  · rw [if_neg hI]
    rcases Nat.lt_or_ge i mx with hImx | hImx
    · have hIn0 : n0 ≤ i := by omega
      have hidiv : i / 20 < nb := by omega
      have hzero_old := htail' i hIn0
      split_ifs with h1 h2
      · rcases Nat.lt_or_ge (i / 20) (nb - 1) with hlt | hge2
        · rw [getD_set_ne _ _ _ _ (by omega), hlrget _ hidiv (by omega)]
          exact hzero_old
        · have hteq : i / 20 = nb - 1 := by omega
          rw [hteq, getD_set_self _ _ _ (by omega),
            getDigit_zeroDigitsFrom _ _ _ _ (getD_words_lt _ hlrwords _) (by omega) (by omega)]
          by_cases hzd : nmd ≤ i % 20 ∧ i % 20 < omd
          · rw [if_pos hzd]
          · rw [if_neg hzd, hlrget _ (by omega) (by omega)]
            rw [hteq] at hzero_old
            exact hzero_old
      · rcases Nat.lt_or_ge (i / 20) (nb - 1) with hlt | hge2
        · rw [getD_set_ne _ _ _ _ (by omega), hlrget _ hidiv (by omega)]
          exact hzero_old
        · have hteq : i / 20 = nb - 1 := by omega
          rw [hteq, getD_set_self _ _ _ (by omega),
            getDigit_zeroDigitsFrom _ _ _ _ (getD_words_lt _ hlrwords _) (by omega) (by omega)]
          by_cases hzd : nmd ≤ i % 20 ∧ i % 20 < 20
          · rw [if_pos hzd]
          · rw [if_neg hzd, hlrget _ (by omega) (by omega)]
            rw [hteq] at hzero_old
            exact hzero_old
      · rcases Nat.lt_or_ge (i / 20) L.length with hL2 | hL2
        · rw [hlrget _ hidiv hL2]
          exact hzero_old
        · rw [hlrpad _ hL2]
          exact getDigit_zero _
    · rcases Nat.lt_or_ge (i / 20) nb with hidiv | hidiv
      · have hteq : i / 20 = nb - 1 := by omega
        have hdig : nmd ≤ i % 20 := by omega
        split_ifs with h1 h2
        · rw [hteq, getD_set_self _ _ _ (by omega),
            getDigit_zeroDigitsFrom _ _ _ _ (getD_words_lt _ hlrwords _) (by omega) (by omega)]
          by_cases hzd : nmd ≤ i % 20 ∧ i % 20 < omd
          · rw [if_pos hzd]
          · rw [if_neg hzd, hlrget _ (by omega) (by omega)]
            have homdle : omd ≤ i % 20 := by omega
            have hiold : n0 ≤ 20 * (L.length - 1) + i % 20 := by omega
            have h0 := htail' (20 * (L.length - 1) + i % 20) hiold
            have hdd : (20 * (L.length - 1) + i % 20) / 20 = L.length - 1 := by omega
            have hmm2 : (20 * (L.length - 1) + i % 20) % 20 = i % 20 := by omega
            rw [hdd, hmm2] at h0
            have hnbL : nb - 1 = L.length - 1 := by omega
            rw [hnbL]
            exact h0
        · rw [hteq, getD_set_self _ _ _ (by omega),
            getDigit_zeroDigitsFrom _ _ _ _ (getD_words_lt _ hlrwords _) (by omega) (by omega),
            if_pos (by omega)]
        · rcases Nat.lt_or_ge (i / 20) L.length with hL2 | hL2
          · rw [hlrget _ hidiv hL2]
            have homdle : omd ≤ i % 20 := by omega
            have hiold : n0 ≤ 20 * (L.length - 1) + i % 20 := by omega
            have h0 := htail' (20 * (L.length - 1) + i % 20) hiold
            have hdd : (20 * (L.length - 1) + i % 20) / 20 = L.length - 1 := by omega
            have hmm2 : (20 * (L.length - 1) + i % 20) % 20 = i % 20 := by omega
            rw [hdd, hmm2] at h0
            have hnbL : i / 20 = L.length - 1 := by omega
            rw [hnbL]
            exact h0
          · rw [hlrpad _ hL2]
            exact getDigit_zero _
      · split_ifs with h1 h2
        · rw [getD_set_ne _ _ _ _ (by omega), hlrbeyond _ (by omega)]
          exact getDigit_zero _
        · rw [getD_set_ne _ _ _ _ (by omega), hlrbeyond _ (by omega)]
          exact getDigit_zero _
        · rw [hlrbeyond _ (by omega)]
          exact getDigit_zero _

/-- ResizeWithZeros preserves well-formedness. -/
lemma resize_wf (na : NA) (hwf : NAWf na) (mx : ℕ) : NAWf (na.resizeWithZeros mx) := by
  obtain ⟨hlen2, hmm⟩ := resize_length na mx
  refine ⟨by rw [hlen2, hmm], resize_words na hwf.2.1 mx, ?_⟩
  intro i hi
  rw [hmm] at hi
  rw [resize_read na hwf mx i, if_neg (by omega)]

/-- In-range element writes preserve well-formedness. -/
lemma write_wf (na : NA) (hwf : NAWf na) (pos t : ℕ) (hpos : pos < na.mmax) (ht : t < 3) :
    NAWf (na.write pos t) := by
  obtain ⟨hlen, hwords, htail⟩ := hwf
  refine ⟨?_, ?_, ?_⟩
  · simpa [NA.write] using hlen
  · intro w hw
    simp only [NA.write] at hw
    rcases List.mem_or_eq_of_mem_set hw with hmem | rfl
    · exact hwords _ hmem
    · exact setDigit_lt _ _ _ (getD_words_lt _ hwords _)
        (Nat.mod_lt _ (by norm_num [nstatesInPackedType])) ht
  · intro i hi
    simp only [NA.write] at hi
    rw [NA.read_write_ne na pos t i hwords ht (by omega)]
    exact htail i hi

/-- The freshly constructed NstateArray is well-formed. -/
lemma naNew_wf (sz : ℕ) : NAWf (naNew sz) := by
  apply resize_wf
  refine ⟨by decide, by simp, ?_⟩
  intro i _
  have h : NA.read ⟨[], 0⟩ i = GetDigitInPackedValue 0 (i % nstatesInPackedType) := by
    simp [NA.read]
  rw [h]
  exact getDigit_zero _

/-- Every public NstateArray operation preserves well-formedness. -/
lemma applyOp_wf (na : NA) (hwf : NAWf na) (op : NAOp) : NAWf (na.applyOp op) := by
  cases op with
  | write pos t =>
    simp only [NA.applyOp]
    split_ifs with h
    · exact write_wf na hwf pos t h.1 h.2
    · exact hwf
  | resize mx => exact resize_wf na hwf mx

/-- Folding a list of operations preserves well-formedness. -/
lemma foldl_applyOp_wf (ops : List NAOp) (na : NA) (hwf : NAWf na) :
    NAWf (ops.foldl NA.applyOp na) := by
  induction ops generalizing na with
  | nil => exact hwf
  | cons op ops ih => exact ih _ (applyOp_wf na hwf op)

/-- Every API-reachable NstateArray state is well-formed. -/
lemma runOps_wf (sz : ℕ) (ops : List NAOp) : NAWf (runOps sz ops) :=
  foldl_applyOp_wf ops (naNew sz) (naNew_wf sz)

/-! ### Triangular-layout arithmetic and destroy/compaction (claim C5). -/

/-- Successor step of the triangular existence index. -/
lemma tifE_succ (n : ℕ) : tifE (n + 1) = tifE n + (n + 1) := by
  unfold tifE
  have h1 : (n + 1) * (n + 1 + 1) = n * (n + 1) + 2 * (n + 1) := by ring
  have h2 : n * (n + 1) % 2 = 0 := Nat.even_iff.mp (Nat.even_mul_succ_self n)
  omega

/-- Monotonicity of the triangular existence index. -/
lemma tifE_le (a b : ℕ) (h : a ≤ b) : tifE a ≤ tifE b := by
  induction h with
  | refl => exact le_rfl
  | step h2 ih =>
    rw [tifE_succ]
    omega

/-- Strict monotonicity of the triangular existence index. -/
lemma tifE_lt (a b : ℕ) (h : a < b) : tifE a < tifE b := by
  have h2 := tifE_le (a + 1) b h
  rw [tifE_succ] at h2
  omega

/-- A connection index lies strictly between consecutive existence indices. -/
lemma tifC_bounds (s l : ℕ) (h : s < l) : tifE l < tifC s l ∧ tifC s l < tifE (l + 1) := by
  unfold tifC
  rw [tifE_succ]
  omega

/-- Connection indices never collide with existence indices. -/
lemma tifC_ne_tifE (s l k : ℕ) (h : s < l) : tifC s l ≠ tifE k := by
  obtain ⟨h1, h2⟩ := tifC_bounds s l h
  rcases Nat.lt_or_ge k (l + 1) with hk | hk
  · have h3 := tifE_le k l (by omega)
    omega
  · have h3 := tifE_le (l + 1) k hk
    omega

/-- The downward-search integer square root is exact when the true root is
known. -/
lemma isqrtAux_exact (x m : ℕ) : ∀ b, m * m ≤ x → x < (m + 1) * (m + 1) → m ≤ b →
    isqrtAux x b = m := by
  intro b
  induction b with
  | zero =>
    intro h1 h2 h3
    unfold isqrtAux
    omega
  | succ r ih =>
    intro h1 h2 h3
    unfold isqrtAux
    split_ifs with hr
    · have hrm : r + 1 < m + 1 := by
        by_contra hc
        push_neg at hc
        have h4 := Nat.mul_le_mul hc hc
        omega
      omega
    · apply ih h1 h2
      have h5 : m ≠ r + 1 := by
        intro hm
        rw [hm] at h1
        omega
      omega

/-- The integer square root of a perfect square. -/
lemma isqrt_square (m : ℕ) : isqrt (m * m) = m := by
  unfold isqrt
  have h2 : m * m < (m + 1) * (m + 1) := by
    have h3 : (m + 1) * (m + 1) = m * m + 2 * m + 1 := by ring
    omega
  rcases Nat.eq_zero_or_pos m with h0 | h0
  · subst h0
    rfl
  · exact isqrtAux_exact (m * m) m (m * m) le_rfl h2 (Nat.le_mul_of_pos_right m h0)

/-- The quadratic-formula inversion is exact on existence indices. -/
lemma vertexFromExistenceIndex_tifE (n : ℕ) : vertexFromExistenceIndex (tifE n) = n := by
  unfold vertexFromExistenceIndex
  have h8 : 1 + 8 * tifE n = (2 * n + 1) * (2 * n + 1) := by
    unfold tifE
    have h2 : n * (n + 1) % 2 = 0 := Nat.even_iff.mp (Nat.even_mul_succ_self n)
    have h3 : (2 * n + 1) * (2 * n + 1) = 4 * (n * (n + 1)) + 1 := by ring
    omega
  rw [h8, isqrt_square]
  omega

/-- A graph whose buffer holds exactly E(n) cells reports first_invalid = n. -/
lemma firstInvalid_of_mmax (g : OG) (n : ℕ) (h : g.buffer.mmax = tifE n) :
    g.firstInvalid = n := by
  unfold OG.firstInvalid
  rw [h]
  cases n with
  | zero => norm_num [tifE]
  | succ k =>
    rw [if_neg (by rw [tifE_succ]; omega), vertexFromExistenceIndex_tifE]

/-- Writing one cell does not change the element count. -/
lemma setCell_mmax (g : OG) (i x : ℕ) : (g.setCell i x).buffer.mmax = g.buffer.mmax := rfl

/-- Writing a valid in-range cell preserves well-formedness. -/
lemma setCell_wf (g : OG) (i x : ℕ) (hwf : NAWf g.buffer) (hi : i < g.buffer.mmax)
    (hx : x < 3) : NAWf (g.setCell i x).buffer :=
  write_wf g.buffer hwf i x hi hx

/-- Writing one cell leaves every other cell unchanged. -/
lemma cell_setCell_ne (g : OG) (i x k : ℕ) (hwf : NAWf g.buffer) (hx : x < 3)
    (hne : k ≠ i) : (g.setCell i x).cell k = g.cell k :=
  NA.read_write_ne g.buffer i x k hwf.2.1 hx hne

/-- Reading back a written in-range cell. -/
lemma cell_setCell_self (g : OG) (i x : ℕ) (hwf : NAWf g.buffer) (hi : i < g.buffer.mmax)
    (hx : x < 3) : (g.setCell i x).cell i = x := by
  obtain ⟨hlen, hwords, _⟩ := hwf
  refine NA.read_write_self g.buffer i x hwords hx ?_
  simp only [nstatesInPackedType] at hlen ⊢
  by_cases h20 : g.buffer.mmax % 20 = 0
  · rw [if_pos h20] at hlen
    omega
  · rw [if_neg h20] at hlen
    omega

/-- The compaction walk coincides with the one-plus-largest-live scan. -/
lemma walkDown_eq_onePlusLargestLive (g : OG) (m : ℕ) :
    g.walkDown m = onePlusLargestLive g m := by
  induction m with
  | zero => rfl
  | succ k ih =>
    unfold OG.walkDown onePlusLargestLive
    split_ifs
    · rfl
    · exact ih

/-- The one-plus-largest-live scan never exceeds its starting bound. -/
lemma onePlus_le (g : OG) (m : ℕ) : onePlusLargestLive g m ≤ m := by
  induction m with
  | zero => simp [onePlusLargestLive]
  | succ k ih =>
    simp only [onePlusLargestLive]
    split_ifs
    · exact le_rfl
    · omega

/-- The scan stops either at zero or just above a live cell. -/
lemma onePlus_last_live (g : OG) (m : ℕ) :
    onePlusLargestLive g m = 0 ∨ g.existenceCell (onePlusLargestLive g m - 1) ≠ 0 := by
  induction m with
  | zero => exact Or.inl (by simp [onePlusLargestLive])
  | succ k ih =>
    simp only [onePlusLargestLive]
    split_ifs with h
    · exact Or.inr (by simpa using h)
    · exact ih

/-- Characterization: the scan value is determined by a dead suffix with a
live cell (or nothing) below it. -/
lemma onePlus_eq_of (G : OG) (m : ℕ) : ∀ n, m ≤ n →
    (∀ k, m ≤ k → k < n → G.existenceCell k = 0) →
    (m = 0 ∨ G.existenceCell (m - 1) ≠ 0) →
    onePlusLargestLive G n = m := by
  intro n
  induction n with
  | zero =>
    intro hmn _ _
    simp only [onePlusLargestLive]
    omega
  | succ k ih =>
    intro hmn hzero hlast
    simp only [onePlusLargestLive]
    split_ifs with hk
    · have hklt : k < m := by
        by_contra hc
        push_neg at hc
        exact hk (hzero k hc (Nat.lt_succ_self k))
      omega
    · push_neg at hk
      have hmk : m ≤ k := by
        rcases hlast with h0 | hl
        · omega
        · by_contra hc
          push_neg at hc
          have hm2 : m = k + 1 := by omega
          rw [hm2] at hl
          simp only [Nat.add_sub_cancel] at hl
          exact hl hk
      exact ih hmk (fun j hj1 hj2 => hzero j hj1 (by omega)) hlast

/-- One connection-scan step preserves m_max, well-formedness, and every
existence cell. -/
lemma destroyScanStep_state (de : Bool) (vE vT n : ℕ) (acc : OG × ℕ × ℕ)
    (hmm : acc.1.buffer.mmax = tifE n) (hwfa : NAWf acc.1.buffer)
    (hvE : vE < n) (hvT : vT < n) :
    (destroyScanStep de vE acc vT).1.buffer.mmax = tifE n ∧
    NAWf (destroyScanStep de vE acc vT).1.buffer ∧
    ∀ k, (destroyScanStep de vE acc vT).1.existenceCell k = acc.1.existenceCell k := by
  obtain ⟨h, ic, oc⟩ := acc
  dsimp only at hmm hwfa ⊢
  simp only [destroyScanStep]
  by_cases hve : vT = vE
  · rw [if_pos hve]
    exact ⟨hmm, hwfa, fun k => rfl⟩
  · rw [if_neg hve]
    by_cases hc : h.cell (tifC (min vT vE) (max vT vE)) = 0
    · rw [if_pos hc]
      exact ⟨hmm, hwfa, fun k => rfl⟩
    · rw [if_neg hc]
      have hsl : min vT vE < max vT vE := by omega
      have hpos : tifC (min vT vE) (max vT vE) < h.buffer.mmax := by
        have h2 := (tifC_bounds _ _ hsl).2
        have h3 : tifE (max vT vE + 1) ≤ tifE n := tifE_le _ _ (by omega)
        omega
      have hwfset : NAWf (h.setCell (tifC (min vT vE) (max vT vE)) 0).buffer :=
        setCell_wf _ _ _ hwfa hpos (by norm_num)
      have hmmset : (h.setCell (tifC (min vT vE) (max vT vE)) 0).buffer.mmax = tifE n := by
        rw [setCell_mmax]
        exact hmm
      have hcells : ∀ k, (h.setCell (tifC (min vT vE) (max vT vE)) 0).existenceCell k
          = h.existenceCell k := fun k =>
        cell_setCell_ne _ _ _ _ hwfa (by norm_num) (Ne.symm (tifC_ne_tifE _ _ k hsl))
      cases de
      · rw [if_neg Bool.false_ne_true]
        split_ifs <;> exact ⟨hmm, hwfa, fun k => rfl⟩
      · rw [if_pos rfl]
        split_ifs <;> exact ⟨hmmset, hwfset, hcells⟩

/-- The whole connection scan preserves m_max, well-formedness, and every
existence cell. -/
lemma destroyScan_foldl (de : Bool) (vE n : ℕ) (hvE : vE < n) :
    ∀ (ds : List ℕ), (∀ x ∈ ds, x < n) →
    ∀ (acc : OG × ℕ × ℕ), acc.1.buffer.mmax = tifE n → NAWf acc.1.buffer →
      (ds.foldl (destroyScanStep de vE) acc).1.buffer.mmax = tifE n ∧
      NAWf (ds.foldl (destroyScanStep de vE) acc).1.buffer ∧
      ∀ k, (ds.foldl (destroyScanStep de vE) acc).1.existenceCell k
        = acc.1.existenceCell k := by
  intro ds
  induction ds with
  | nil =>
    intro _ acc h1 h2
    exact ⟨h1, h2, fun k => rfl⟩
  | cons d ds ih =>
    intro hds acc h1 h2
    simp only [List.foldl_cons]
    obtain ⟨s1, s2, s3⟩ := destroyScanStep_state de vE d n acc h1 h2 hvE (hds d (by simp))
    obtain ⟨t1, t2, t3⟩ :=
      ih (fun x hx => hds x (by simp [hx])) (destroyScanStep de vE acc d) s1 s2
    exact ⟨t1, t2, fun k => (t3 k).trans (s3 k)⟩

/-- Shrinking to first-invalid m: m_max becomes E(m), well-formedness is
kept, and existence cells below m survive while the rest read zero. -/
lemma shrink_props (g : OG) (m : ℕ) (hwf : NAWf g.buffer) :
    (g.shrinkCapacitySoVertexIsFirstInvalidID m).buffer.mmax = tifE m ∧
    NAWf (g.shrinkCapacitySoVertexIsFirstInvalidID m).buffer ∧
    ∀ k, (g.shrinkCapacitySoVertexIsFirstInvalidID m).existenceCell k
      = if k < m then g.existenceCell k else 0 := by
  unfold OG.shrinkCapacitySoVertexIsFirstInvalidID OG.setCapacitySoVertexIsFirstInvalidID
  split_ifs with hm
  · subst hm
    refine ⟨?_, resize_wf _ hwf 0, ?_⟩
    · show (g.buffer.resizeWithZeros 0).mmax = tifE 0
      rw [(resize_length g.buffer 0).2]
      rfl
    · intro k
      show (g.buffer.resizeWithZeros 0).read (tifE k) = _
      rw [resize_read _ hwf 0 _, if_neg (by omega), if_neg (by omega)]
  · refine ⟨(resize_length g.buffer (tifE m)).2, resize_wf _ hwf _, ?_⟩
    intro k
    show (g.buffer.resizeWithZeros (tifE m)).read (tifE k) = _
    rw [resize_read _ hwf _ _]
    by_cases hk : k < m
    · rw [if_pos hk]
      by_cases hmm : tifE k < g.buffer.mmax
      · rw [if_pos ⟨tifE_lt k m hk, hmm⟩]
        rfl
      · rw [if_neg (fun hh => hmm hh.2)]
        exact (hwf.2.2 (tifE k) (by omega)).symm
    · rw [if_neg hk, if_neg ?_]
      intro hh
      have h3 := tifE_le m k (by omega)
      omega

/-- The post-destruction existence-clear plus compaction branch produces a
first_invalid that is one plus the largest live id, with a dead suffix and a
live cell just below (or zero). -/
lemma destroy_compact_assemble (g2 : OG) (nn : ℕ) (hwf2 : NAWf g2.buffer)
    (hmm2 : g2.buffer.mmax = tifE (nn + 1)) :
    (if g2.existenceCell nn = 0
      then g2.shrinkCapacitySoVertexIsFirstInvalidID (g2.walkDown nn)
      else g2).firstInvalid
      = onePlusLargestLive (if g2.existenceCell nn = 0
          then g2.shrinkCapacitySoVertexIsFirstInvalidID (g2.walkDown nn)
          else g2) (nn + 1) ∧
    (∀ k, (if g2.existenceCell nn = 0
        then g2.shrinkCapacitySoVertexIsFirstInvalidID (g2.walkDown nn)
        else g2).firstInvalid ≤ k → k < nn + 1 →
      (if g2.existenceCell nn = 0
        then g2.shrinkCapacitySoVertexIsFirstInvalidID (g2.walkDown nn)
        else g2).existenceCell k = 0) ∧
    ((if g2.existenceCell nn = 0
        then g2.shrinkCapacitySoVertexIsFirstInvalidID (g2.walkDown nn)
        else g2).firstInvalid = 0 ∨
      (if g2.existenceCell nn = 0
        then g2.shrinkCapacitySoVertexIsFirstInvalidID (g2.walkDown nn)
        else g2).existenceCell ((if g2.existenceCell nn = 0
          then g2.shrinkCapacitySoVertexIsFirstInvalidID (g2.walkDown nn)
          else g2).firstInvalid - 1) ≠ 0) := by
  have hfi2 : g2.firstInvalid = nn + 1 := firstInvalid_of_mmax g2 (nn + 1) hmm2
  by_cases hlast : g2.existenceCell nn = 0
  · simp only [if_pos hlast]
    rw [walkDown_eq_onePlusLargestLive]
    set m := onePlusLargestLive g2 nn with hm
    have hle : m ≤ nn := onePlus_le g2 nn
    obtain ⟨q1, q2, q3⟩ := shrink_props g2 m hwf2
    have hfi : (g2.shrinkCapacitySoVertexIsFirstInvalidID m).firstInvalid = m :=
      firstInvalid_of_mmax _ m q1
    rw [hfi]
    have hlastlive : m = 0 ∨ g2.existenceCell (m - 1) ≠ 0 := onePlus_last_live g2 nn
    have hsz : ∀ k, m ≤ k → k < nn + 1 →
        (g2.shrinkCapacitySoVertexIsFirstInvalidID m).existenceCell k = 0 := by
      intro k h1 h2
      rw [q3 k, if_neg (by omega)]
    have hsl : m = 0 ∨
        (g2.shrinkCapacitySoVertexIsFirstInvalidID m).existenceCell (m - 1) ≠ 0 := by
      rcases Nat.eq_zero_or_pos m with h0 | hpos
      · exact Or.inl h0
      · rcases hlastlive with h0 | hl2
        · exact Or.inl h0
        · refine Or.inr ?_
          rw [q3 (m - 1), if_pos (by omega)]
          exact hl2
    exact ⟨(onePlus_eq_of _ m (nn + 1) (by omega) hsz hsl).symm, hsz, hsl⟩
  · simp only [if_neg hlast]
    rw [hfi2]
    refine ⟨?_, ?_, ?_⟩
    · have h1 : onePlusLargestLive g2 (nn + 1) = nn + 1 := by
        simp only [onePlusLargestLive]
        rw [if_pos hlast]
      exact h1.symm
    · intro k h1 h2
      omega
    · exact Or.inr (by simpa using hlast)

/-- Evaluating GetVertexInfoMaybeDestroy on a live vertex with destruction
and compaction requested, in terms of the scanned-or-original state g1. -/
lemma destroy_state_eq (g g1 : OG) (vE : ℕ) (w : Bool) (hlive : g.existenceCell vE ≠ 0)
    (hg1 : g1 = if w
      then ((List.range g.firstInvalid).foldl (destroyScanStep true vE) (g, 0, 0)).1
      else g) :
    (g.getVertexInfoMaybeDestroy vE w true true).1
      = if (g1.setCell (tifE vE) 0).existenceCell
            ((g1.setCell (tifE vE) 0).firstInvalid - 1) = 0
        then (g1.setCell (tifE vE) 0).shrinkCapacitySoVertexIsFirstInvalidID
          ((g1.setCell (tifE vE) 0).walkDown ((g1.setCell (tifE vE) 0).firstInvalid - 1))
        else g1.setCell (tifE vE) 0 := by
  subst hg1
  cases w <;>
  · simp [OG.getVertexInfoMaybeDestroy, hlive, apply_ite]
    split_ifs with hcond
    · intro h2
      exact absurd hcond h2
    · intro h2
      exact absurd h2 hcond

/-- Claim C7 (amended).  For every packed word in the valid radix-3 range
p < 3^D, digit d < D and value t in {0,1,2}: reading digit d after
SetDigitInPackedValue(p, d, t) returns t, every other digit d' < D reads the
same value as in p, and D = 20 is floor(log_3 2^32) (i.e. 3^D fits in a
32-bit word and 3^(D+1) does not). -/
theorem digit_roundtrip (p d t : ℕ) (hp : p < 3 ^ nstatesInPackedType)
    (hd : d < nstatesInPackedType) (ht : t < 3) :
    GetDigitInPackedValue (SetDigitInPackedValue p d t) d = t ∧
    (∀ d2, d2 < nstatesInPackedType → d2 ≠ d →
      GetDigitInPackedValue (SetDigitInPackedValue p d t) d2 = GetDigitInPackedValue p d2) ∧
    3 ^ nstatesInPackedType ≤ 2 ^ 32 ∧ 2 ^ 32 < 3 ^ (nstatesInPackedType + 1) :=
  ⟨getDigit_setDigit_self p d t hp hd ht,
   fun d2 hd2 hne => getDigit_setDigit_ne p d t d2 hp hd ht hd2 hne,
   by norm_num [nstatesInPackedType], by norm_num [nstatesInPackedType]⟩

/-- Witness for digit_roundtrip at p = 12345, d = 3, t = 2. -/
theorem digit_roundtrip_witness :
    (12345 : ℕ) < 3 ^ nstatesInPackedType ∧ (3 : ℕ) < nstatesInPackedType ∧ (2 : ℕ) < 3 ∧
    GetDigitInPackedValue (SetDigitInPackedValue 12345 3 2) 3 = 2 :=
  ⟨by norm_num [nstatesInPackedType], by decide, by decide,
    (digit_roundtrip 12345 3 2 (by norm_num [nstatesInPackedType]) (by decide) (by decide)).1⟩

set_option maxRecDepth 100000 in
/-- Claim C1 (code bug).  The cached CanReach is not observationally
equivalent to the plain DFS implementation.  After the create/set/clear
sequence of upgradeTrace (create 0..3; set_edge(0,2); set_edge(1,3);
set_edge(3,2); clear_edge(3,2); set_edge(0,3); clear_edge(0,2)), vertices 0
and 2 are live and distinct, the cached CanReach(0,2) answers true while the
DFS implementation answers false (no directed path 0→2 exists in the data
graph), and the subsequent set_edge(2,0) is rejected with the cycle outcome
even though the reference implementation would accept it.  The root cause is
the unqualified SetVertexType call in SetEdge's reach-without-link upgrade
loop, which dirties the data graph's user tag instead of the canreach tag,
so vertex 0 stays (wrongly) clean and ClearEdge's fast path records a false
positive closure bit on a clean row. -/
theorem cached_canReach_diverges_from_dfs :
    (DAG.canReach 100 upgradeTrace 0 2).2 = true ∧
    upgradeTrace.data.canReachViaDFS 100 0 2 = false ∧
    upgradeTrace.data.vertexExists 0 = true ∧
    upgradeTrace.data.vertexExists 2 = true ∧
    (upgradeTrace.setEdge 100 2 0).2 = SetEdgeOutcome.cycleError := by
  refine ⟨?_, ?_, ?_, ?_, ?_⟩ <;> rfl

set_option maxRecDepth 100000 in
/-- Claim C2 (code bug).  An API-reachable DirectedAcyclicGraph state whose
data graph contains a directed cycle.  resurrectionTrace destroys vertex 0
through the public DestroyVertex (NULL edge-count out-parameters), which
skips the connection-clearing scan of GetVertexInfoMaybeDestroy, then
recreates vertex 0, resurrecting the stale edges 0→1 and 1→2; since the
canreach row of 0 was cleared (the canreach destroy does pass count
pointers), the cycle check of set_edge(2,0) consults a clean empty row,
answers false, and inserts the edge closing the live cycle 0→1→2→0. -/
theorem api_reachable_state_with_directed_cycle :
    ((resurrectionTrace.setEdge 100 2 0).1).data.Reaches 0 0 ∧
    ((resurrectionTrace.setEdge 100 2 0).1).data.vertexExists 0 = true ∧
    ((resurrectionTrace.setEdge 100 2 0).1).data.vertexExists 1 = true ∧
    ((resurrectionTrace.setEdge 100 2 0).1).data.vertexExists 2 = true := by
  refine ⟨?_, rfl, rfl, rfl⟩
  have h01 : ((resurrectionTrace.setEdge 100 2 0).1).data.edgeExists 0 1 = true := by rfl
  have h12 : ((resurrectionTrace.setEdge 100 2 0).1).data.edgeExists 1 2 = true := by rfl
  have h20 : ((resurrectionTrace.setEdge 100 2 0).1).data.edgeExists 2 0 = true := by rfl
  exact Relation.TransGen.head h01
    (Relation.TransGen.head h12 (Relation.TransGen.single h20))

set_option maxRecDepth 100000 in
/-- Claim C3 (code bug).  SetEdge(from, to) does not raise the cycle outcome
if and only if `to` can already reach `from`: in the state resurrectionTrace
(all of 0, 1, 2 live), calling set_edge(2, 0) returns the plain added
outcome even though vertex 0 (the `to`) already reaches vertex 2 (the
`from`) through the resurrected data path 0→1→2. -/
theorem setEdge_accepts_despite_reachable :
    (resurrectionTrace.setEdge 100 2 0).2 = SetEdgeOutcome.added ∧
    resurrectionTrace.data.Reaches 0 2 ∧
    resurrectionTrace.data.vertexExists 0 = true ∧
    resurrectionTrace.data.vertexExists 2 = true ∧
    (2 : ℕ) ≠ 0 := by
  refine ⟨rfl, ?_, rfl, rfl, by decide⟩
  have h01 : resurrectionTrace.data.edgeExists 0 1 = true := by rfl
  have h12 : resurrectionTrace.data.edgeExists 1 2 = true := by rfl
  exact Relation.TransGen.head h01 (Relation.TransGen.single h12)

/-- Claim C4 (code bug).  DestroyVertex without edge-count out-parameters
does not clear the connection cells: in destroyTraceOG (vertices 0, 1, 2
live, edge 0→1), destroying vertex 1 through the public DestroyVertex
default leaves the connection cell C(0,1) holding the edge tristate 1, even
though vertex 1 no longer exists; the variant that does request the counts
clears the cell as the claim describes. -/
theorem destroyVertex_leaves_connection_cell :
    (destroyTraceOG.destroyVertex 1).cell (tifC 0 1) = 1 ∧
    (destroyTraceOG.destroyVertex 1).vertexExists 1 = false ∧
    destroyTraceOG.vertexExists 0 = true ∧
    destroyTraceOG.vertexExists 2 = true ∧
    ((destroyTraceOG.destroyVertexExCounts 1 true).1).cell (tifC 0 1) = 0 := by
  refine ⟨?_, ?_, ?_, ?_, ?_⟩ <;> rfl

/-- Claim C5, counterexample.  The two characterizations of the claim
disagree on the code: destroying vertex 2 of compactTraceOG (vertices 0, 1,
2 live, edge 0→2) through the default DestroyVertex leaves first_invalid =
2 (one plus the largest live id), but the smallest v' for which every cell
from E(v') up to E(3) is zero — evaluated on the destroyed, not-yet-shrunk
buffer — is 3, because the stale connection cell C(0,2) was never cleared. -/
theorem compaction_not_zero_suffix :
    ((compactTraceOG.getVertexInfoMaybeDestroy 2 false true true).1).firstInvalid = 2 ∧
    smallestZeroSuffix ((compactTraceOG.getVertexInfoMaybeDestroy 2 false true false).1) 3 = 3 := by
  refine ⟨?_, ?_⟩ <;> rfl

/-- Claim C6 (code bug).  SetCapacitySoVertexIsFirstInvalidID does not leave
both graphs with the same first_invalid: the override resizes the data graph
with SetCapacitySoVertexIsFirstInvalidID(v) (to E(v)) but the canreach
sidestructure with SetCapacityForMaxValidVertexID(v) (to E(v+1)), so after
calling it with v = 1 on a fresh DAG the data graph reports first_invalid =
1 while canreach reports first_invalid = 2. -/
theorem setCapacityFirstInvalid_mismatch :
    ((dagNew 0).setCapacitySoVertexIsFirstInvalidID 1).data.firstInvalid = 1 ∧
    ((dagNew 0).setCapacitySoVertexIsFirstInvalidID 1).canreach.firstInvalid = 2 := by
  refine ⟨?_, ?_⟩ <;> rfl

/-- Claim C7, counterexample.  The round-trip property fails for packed
words outside the valid radix-3 range: for p = 2^32 - 1 (a representable
32-bit packed word), writing digit 0 to the value 2 overflows the unsigned
sum (upperPart = p, so p + 2 wraps to 1), and reading digit 0 back yields 1,
not 2. -/
theorem setDigit_overflow_counterexample :
    4294967295 < 2 ^ 32 ∧ 0 < nstatesInPackedType ∧ (2 : ℕ) < 3 ∧
    GetDigitInPackedValue (SetDigitInPackedValue 4294967295 0 2) 0 = 1 := by
  refine ⟨by norm_num, by decide, by decide, ?_⟩
  rfl

/-- Claim C9 (code bug).  In the reach-without-link upgrade loop of SetEdge,
the Dirty mark is written through the unqualified (inherited) SetVertexType,
i.e. onto the data graph's user-visible vertex tag, and the canreach tag is
left untouched.  In upgradePre, canreach tag of vertex 3 is Dirty; calling
set_edge(0, 3) upgrades the tristate of the physical out-edge (0,2) (since
2 is in the to-cone and (0,2) is not the inserted edge) and flips the data
graph's tag of vertex 0 from TypeOne to TypeTwo, while vertex 0's canreach
tag remains Clean. -/
theorem upgrade_loop_mutates_data_tag :
    upgradePre.data.getVertexType 0 = vertexTypeOne ∧
    upgradePre.canreach.getVertexType 3 = canreachMayHaveFalsePositives ∧
    upgradePre.getTristateForConnection 0 2 = notReachableWithoutEdge ∧
    ((upgradePre.setEdge 100 0 3).1).getTristateForConnection 0 2 = isReachableWithoutEdge ∧
    ((upgradePre.setEdge 100 0 3).1).data.getVertexType 0 = vertexTypeTwo ∧
    ((upgradePre.setEdge 100 0 3).1).canreach.getVertexType 0 = canreachClean := by
  refine ⟨?_, ?_, ?_, ?_, ?_, ?_⟩ <;> rfl

/-- Claim C8 (confirmed).  For every NstateArray reachable by a sequence of
element writes and ResizeWithZeros calls from a freshly constructed array:
(1) immediately after a further resize to m, every index that is in range of
the new size but was at or beyond the previous size reads 0 (growth exposes
only zeros, including regrowth after a shrink), and (2) in the reachable
state itself every index at or beyond m_max reads 0, so a shrink leaves no
stale nonzero digit to be re-exposed. -/
theorem resize_exposes_only_zeros (sz : ℕ) (ops : List NAOp) (mx i : ℕ) :
    (i < mx → (runOps sz ops).mmax ≤ i →
      ((runOps sz ops).applyOp (NAOp.resize mx)).read i = 0) ∧
    ((runOps sz ops).mmax ≤ i → (runOps sz ops).read i = 0) := by
  have hwf : NAWf (runOps sz ops) := runOps_wf sz ops
  constructor
  · intro h1 h2
    show ((runOps sz ops).resizeWithZeros mx).read i = 0
    rw [resize_read _ hwf mx i, if_neg (by omega)]
  · exact hwf.2.2 i

/-- Witness for resize_exposes_only_zeros: starting from size 1, write
element 0 to 2; growing to size 5 makes index 3 read 0, and shrinking to
size 0 then reading index 0 yields 0, not the stale 2. -/
theorem resize_exposes_only_zeros_witness :
    ((runOps 1 [NAOp.write 0 2]).applyOp (NAOp.resize 5)).read 3 = 0 ∧
    (runOps 1 [NAOp.write 0 2, NAOp.resize 0]).read 0 = 0 :=
  ⟨(resize_exposes_only_zeros 1 [NAOp.write 0 2] 5 3).1 (by decide) (by decide),
   (resize_exposes_only_zeros 1 [NAOp.write 0 2, NAOp.resize 0] 0 0).2 (by decide)⟩

/-- Claim C10 (confirmed).  Every reachability query at the public
interface requires distinct endpoints: CanReach, EdgeExists and HasLinkage
all inherit HasLinkage's asserted preconditions, so a self-query
CanReach(v, v) (or EdgeExists / HasLinkage on (v, v)) is a contract
violation (modelled as none) rather than an operation returning false; and
a HasLinkage query either violates the contract or has distinct live
endpoints. -/
theorem reach_queries_require_distinct_live (d : DAG) (g : OG) (fuel a b v : ℕ) :
    (DAG.canReachChk fuel d v v = none ∧ g.edgeExistsChk v v = none ∧
      g.hasLinkageChk v v = none) ∧
    (g.hasLinkageChk a b = none ∨
      (a ≠ b ∧ g.vertexExists a = true ∧ g.vertexExists b = true)) := by
  have hself : ∀ (g2 : OG) (w : ℕ), g2.hasLinkageChk w w = none := by
    intro g2 w
    unfold OG.hasLinkageChk
    simp
  refine ⟨⟨?_, ?_, hself g v⟩, ?_⟩
  · unfold DAG.canReachChk
    rw [hself d.data v]
  · unfold OG.edgeExistsChk
    rw [hself g v]
  · by_cases hab : a = b
    · left
      subst hab
      exact hself g a
    · by_cases hfa : g.vertexExists a = true
      · by_cases hfb : g.vertexExists b = true
        · right
          exact ⟨hab, hfa, hfb⟩
        · left
          unfold OG.hasLinkageChk
          simp [hab, hfa, hfb]
      · left
        unfold OG.hasLinkageChk
        simp [hab, hfa]

/-- Claim C5 (amended).  For every well-formed OrientedGraph whose buffer
holds exactly the cells of vertices below n, destroying a live vertex v < n
with compaction requested (with or without the connection scan) leaves
first_invalid equal to one plus the largest live vertex id, or 0 if no live
vertex remains: the result of the one-plus-largest-live scan over the old
vertex range, below which sits a live existence cell (unless it is 0), and
at or above which every existence cell of the old range is zero.  The
connection cells are not part of the walk: the all-cells-zero reading of the
claim fails on the code (see the counterexample). -/
theorem destroy_compact_firstInvalid (g : OG) (n v : ℕ) (hwf : NAWf g.buffer)
    (hlen : g.buffer.mmax = tifE n) (hv : v < n) (hlive : g.existenceCell v ≠ 0)
    (winfo : Bool) :
    ((g.getVertexInfoMaybeDestroy v winfo true true).1).firstInvalid
        = onePlusLargestLive ((g.getVertexInfoMaybeDestroy v winfo true true).1) n ∧
    (∀ k, ((g.getVertexInfoMaybeDestroy v winfo true true).1).firstInvalid ≤ k → k < n →
        ((g.getVertexInfoMaybeDestroy v winfo true true).1).existenceCell k = 0) ∧
    (((g.getVertexInfoMaybeDestroy v winfo true true).1).firstInvalid = 0 ∨
        ((g.getVertexInfoMaybeDestroy v winfo true true).1).existenceCell
          (((g.getVertexInfoMaybeDestroy v winfo true true).1).firstInvalid - 1) ≠ 0) := by
  obtain ⟨nn, rfl⟩ : ∃ nn, n = nn + 1 := ⟨n - 1, by omega⟩
  have hfi : g.firstInvalid = nn + 1 := firstInvalid_of_mmax g (nn + 1) hlen
  cases winfo with
  | false =>
    have hG := destroy_state_eq g g v false hlive (by simp)
    rw [hG]
    have hwf2 : NAWf (g.setCell (tifE v) 0).buffer :=
      setCell_wf _ _ _ hwf (by rw [hlen]; exact tifE_lt v (nn + 1) hv) (by norm_num)
    have hmm2 : (g.setCell (tifE v) 0).buffer.mmax = tifE (nn + 1) := by
      rw [setCell_mmax]
      exact hlen
    have hfi2 : (g.setCell (tifE v) 0).firstInvalid = nn + 1 :=
      firstInvalid_of_mmax _ _ hmm2
    rw [hfi2]
    simp only [Nat.add_sub_cancel]
    exact destroy_compact_assemble (g.setCell (tifE v) 0) nn hwf2 hmm2
  | true =>
    obtain ⟨m1, m2, m3⟩ := destroyScan_foldl true v (nn + 1) hv
      (List.range g.firstInvalid)
      (fun x hx => by rw [hfi] at hx; exact List.mem_range.1 hx)
      (g, 0, 0) hlen hwf
    have hG := destroy_state_eq g
      ((List.range g.firstInvalid).foldl (destroyScanStep true v) (g, 0, 0)).1
      v true hlive (by simp)
    rw [hG]
    have hwf2 : NAWf ((((List.range g.firstInvalid).foldl (destroyScanStep true v)
        (g, 0, 0)).1).setCell (tifE v) 0).buffer :=
      setCell_wf _ _ _ m2 (by rw [m1]; exact tifE_lt v (nn + 1) hv) (by norm_num)
    have hmm2 : ((((List.range g.firstInvalid).foldl (destroyScanStep true v)
        (g, 0, 0)).1).setCell (tifE v) 0).buffer.mmax = tifE (nn + 1) := by
      rw [setCell_mmax]
      exact m1
    have hfi2 : ((((List.range g.firstInvalid).foldl (destroyScanStep true v)
        (g, 0, 0)).1).setCell (tifE v) 0).firstInvalid = nn + 1 :=
      firstInvalid_of_mmax _ _ hmm2
    rw [hfi2]
    simp only [Nat.add_sub_cancel]
    exact destroy_compact_assemble _ nn hwf2 hmm2

/-- Witness for destroy_compact_firstInvalid: destroying the topmost live
vertex 2 of compactTraceOG (vertices 0, 1, 2 live, edge 0→2) through the
public DestroyVertex default compacts first_invalid down to 2, one plus the
largest remaining live id. -/
theorem destroy_compact_firstInvalid_witness :
    ((compactTraceOG.getVertexInfoMaybeDestroy 2 false true true).1).firstInvalid
      = onePlusLargestLive ((compactTraceOG.getVertexInfoMaybeDestroy 2 false true true).1) 3 := by
  have h0 : NAWf (naNew 0) := naNew_wf 0
  have h1 : NAWf ((naNew 0).resizeWithZeros (tifE 3)) := resize_wf _ h0 _
  have h2 : NAWf (((naNew 0).resizeWithZeros (tifE 3)).write (tifE 0) 1) :=
    write_wf _ h1 _ _ (by decide) (by decide)
  have h3 : NAWf ((((naNew 0).resizeWithZeros (tifE 3)).write (tifE 0) 1).write (tifE 1) 1) :=
    write_wf _ h2 _ _ (by decide) (by decide)
  have h4 : NAWf (((((naNew 0).resizeWithZeros (tifE 3)).write (tifE 0) 1).write
      (tifE 1) 1).write (tifE 2) 1) :=
    write_wf _ h3 _ _ (by decide) (by decide)
  have h5 : NAWf ((((((naNew 0).resizeWithZeros (tifE 3)).write (tifE 0) 1).write
      (tifE 1) 1).write (tifE 2) 1).write (tifC 0 2) 1) :=
    write_wf _ h4 _ _ (by decide) (by decide)
  have hwfc : NAWf compactTraceOG.buffer := h5
  exact (destroy_compact_firstInvalid compactTraceOG 3 2 hwfc rfl (by decide) (by decide)
    false).1

end Nocycle
